import Mathlib

/-!
# Multi-Process-NS3-Experiment: wire header codec, workload parser, phase scheduler

A shallow embedding of

* `src/point-to-point/model/cn-header.{h,cc}` (class `ns3::CnHeader`),
* `scratch/mpi-simulation/cut-mpi.cc`, function `workLoad`, and
* `scratch/mpi-simulation/cut-mpi.cc`, functions `CreateFlow`, `LoadFlow`,
  `LoadWait`, `flowRx_cb`, the table `topo`, and the start of `main` up to
  the creation of the server nodes,

followed by the properties established about them.

Machine integers are natural numbers; a conversion to an unsigned type of
width `w` is written `% 2 ^ w` at the place where the C++ code converts.
The local `int batch` is an `Int`, and leaving the range of `int` is an error
outcome of the embedding, like the other undefined behaviours that `workLoad`
can reach.  Formatted input (`operator>>`) follows the C++ standard library as
implemented in libstdc++, in the "C" locale.  Values of type `double` are kept
abstract.
-/

set_option autoImplicit false

namespace CnHeaderModel

/-! ## Byte order and the storage of 16/32-bit objects -/

/-- Order of the bytes of a multi-byte integer, in memory or on the wire. -/
inductive ByteOrder where
  | little
  | big
  deriving DecidableEq, Repr

/-- The value of a `uint16_t` whose two bytes, in address order, are `a b`. -/
def load16 : ByteOrder → Nat → Nat → Nat
  | .little, a, b => a + 256 * b
  | .big, a, b => 256 * a + b

/-- The two bytes, in address order, of the `uint16_t` conversion of `v`. -/
def store16 : ByteOrder → Nat → Nat × Nat
  | .little, v => (v % 256, v / 256 % 256)
  | .big, v => (v / 256 % 256, v % 256)

/-- The value of a `uint32_t` whose four bytes, in address order, are `a b c d`. -/
def load32 : ByteOrder → Nat → Nat → Nat → Nat → Nat
  | .little, a, b, c, d => a + 256 * b + 65536 * c + 16777216 * d
  | .big, a, b, c, d => 16777216 * a + 65536 * b + 256 * c + d

/-- The four bytes, in address order, of the `uint32_t` conversion of `v`. -/
def store32 : ByteOrder → Nat → Nat × Nat × Nat × Nat
  | .little, v => (v % 256, v / 256 % 256, v / 65536 % 256, v / 16777216 % 256)
  | .big, v => (v / 16777216 % 256, v / 65536 % 256, v / 256 % 256, v % 256)

/-! ## `Buffer::Iterator`

`ns3::Buffer` is not part of the sources at hand.  Its iterator is embedded as
a byte stream: a writer is the list of bytes written so far, a reader is the
list of bytes not yet read.  The byte order used by `WriteU16`/`ReadU16` is a
parameter of the embedding. -/

/-- A sequence of bytes. -/
abbrev Bytes := List Nat

/-- Method `Buffer::Iterator::WriteU8`: append one byte (the `uint8_t` conversion of `data`). -/
def WriteU8 (start : Bytes) (data : Nat) : Bytes :=
  start ++ [data % 256]

/-- Method `Buffer::Iterator::WriteU16`: append the two bytes of the `uint16_t`
conversion of `data`, in the order `wire`. -/
def WriteU16 (wire : ByteOrder) (start : Bytes) (data : Nat) : Bytes :=
  WriteU8 (WriteU8 start (store16 wire data).1) (store16 wire data).2

/-- Method `Buffer::Iterator::ReadU8`: read one byte; `none` when the buffer is exhausted. -/
def ReadU8 : Bytes → Option (Nat × Bytes)
  | [] => none
  | b :: rest => some (b % 256, rest)

/-- Method `Buffer::Iterator::ReadU16`: read two bytes in the order `wire`. -/
def ReadU16 (wire : ByteOrder) (start : Bytes) : Option (Nat × Bytes) :=
  match ReadU8 start with
  | none => none
  | some (a, start) =>
    match ReadU8 start with
    | none => none
    | some (b, start) => some (load16 wire a b, start)

/-- Modelled from the spec: the byte order of `Buffer::Iterator::WriteU16` and
`ReadU16` (class `ns3::Buffer` is missing from the sources); the spec gives
"big/network byte order for multi-byte fields". -/
def networkOrder : ByteOrder := .big

/-! ## `class CnHeader` -/

/-- The data members of `CnHeader` (cn-header.h, lines 66-78).

The anonymous union `{ struct { uint16_t m_qfb; uint16_t m_total; }; uint32_t m_seq; }`
is four bytes of storage, `u0 .. u3` in address order: `m_qfb` occupies
`u0 u1`, `m_total` occupies `u2 u3`, `m_seq` occupies all four.  The private
members `sport` and `dport` are never read or written and are left out. -/
structure CnHeader where
  m_fid : Nat
  m_qIndex : Nat
  m_ecnBits : Nat
  u0 : Nat
  u1 : Nat
  u2 : Nat
  u3 : Nat
  deriving DecidableEq, Repr

namespace CnHeader

/-- Every member holds a value of its C++ type. -/
def InRange (h : CnHeader) : Prop :=
  h.m_fid < 65536 ∧ h.m_qIndex < 256 ∧ h.m_ecnBits < 256 ∧
    h.u0 < 256 ∧ h.u1 < 256 ∧ h.u2 < 256 ∧ h.u3 < 256

instance (h : CnHeader) : Decidable h.InRange := by
  unfold InRange; infer_instance

/-- Read of the member `m_qfb` on a host of byte order `host`. -/
def m_qfb (host : ByteOrder) (h : CnHeader) : Nat := load16 host h.u0 h.u1

/-- Read of the member `m_total`. -/
def m_total (host : ByteOrder) (h : CnHeader) : Nat := load16 host h.u2 h.u3

/-- Read of the member `m_seq`. -/
def m_seq (host : ByteOrder) (h : CnHeader) : Nat := load32 host h.u0 h.u1 h.u2 h.u3

/-- Assignment `m_qfb = q`. -/
def assign_qfb (host : ByteOrder) (h : CnHeader) (q : Nat) : CnHeader :=
  { h with u0 := (store16 host q).1, u1 := (store16 host q).2 }

/-- Assignment `m_total = total`. -/
def assign_total (host : ByteOrder) (h : CnHeader) (total : Nat) : CnHeader :=
  { h with u2 := (store16 host total).1, u3 := (store16 host total).2 }

/-- Assignment `m_seq = seq`. -/
def assign_seq (host : ByteOrder) (h : CnHeader) (seq : Nat) : CnHeader :=
  { h with u0 := (store32 host seq).1, u1 := (store32 host seq).2.1,
           u2 := (store32 host seq).2.2.1, u3 := (store32 host seq).2.2.2 }

/-- Constructor `CnHeader::CnHeader (fid, qIndex, ecnbits, qfb, total)` (cn-header.cc, line 14). -/
def new (host : ByteOrder) (fid qIndex ecnbits qfb total : Nat) : CnHeader :=
  { m_fid := fid % 65536, m_qIndex := qIndex % 256, m_ecnBits := ecnbits % 256,
    u0 := (store16 host qfb).1, u1 := (store16 host qfb).2,
    u2 := (store16 host total).1, u3 := (store16 host total).2 }

/-- Method `CnHeader::SetFlow`. -/
def SetFlow (h : CnHeader) (fid : Nat) : CnHeader := { h with m_fid := fid % 65536 }

/-- Method `CnHeader::SetQindex`. -/
def SetQindex (h : CnHeader) (qIndex : Nat) : CnHeader := { h with m_qIndex := qIndex % 256 }

/-- Method `CnHeader::SetQfb`. -/
def SetQfb (host : ByteOrder) (h : CnHeader) (q : Nat) : CnHeader := assign_qfb host h q

/-- Method `CnHeader::SetTotal`. -/
def SetTotal (host : ByteOrder) (h : CnHeader) (total : Nat) : CnHeader :=
  assign_total host h total

/-- Method `CnHeader::SetECNBits`. -/
def SetECNBits (h : CnHeader) (ecnbits : Nat) : CnHeader :=
  { h with m_ecnBits := ecnbits % 256 }

/-- Method `CnHeader::GetFlow`. -/
def GetFlow (h : CnHeader) : Nat := h.m_fid

/-- Method `CnHeader::GetQindex`. -/
def GetQindex (h : CnHeader) : Nat := h.m_qIndex

/-- Method `CnHeader::GetQfb`. -/
def GetQfb (host : ByteOrder) (h : CnHeader) : Nat := h.m_qfb host

/-- Method `CnHeader::GetTotal`. -/
def GetTotal (host : ByteOrder) (h : CnHeader) : Nat := h.m_total host

/-- Method `CnHeader::GetECNBits`. -/
def GetECNBits (h : CnHeader) : Nat := h.m_ecnBits

/-- Method `CnHeader::SetSeq`. -/
def SetSeq (host : ByteOrder) (h : CnHeader) (seq : Nat) : CnHeader := assign_seq host h seq

/-- Method `CnHeader::GetSeq`. -/
def GetSeq (host : ByteOrder) (h : CnHeader) : Nat := h.m_seq host

/-- Method `CnHeader::GetSerializedSize`. -/
def GetSerializedSize (_h : CnHeader) : Nat := 8

/-- Method `CnHeader::Serialize` (cn-header.cc, lines 108-115); the result is the
writer after the five writes. -/
def Serialize (wire host : ByteOrder) (h : CnHeader) (start : Bytes) : Bytes :=
  let start := WriteU8 start h.m_qIndex
  let start := WriteU16 wire start h.m_fid
  let start := WriteU8 start h.m_ecnBits
  let start := WriteU16 wire start (h.m_qfb host)
  let start := WriteU16 wire start (h.m_total host)
  start

/-- Method `CnHeader::Deserialize` (cn-header.cc, lines 117-125): the header after
the five reads, the returned size, and the reader left over. -/
def Deserialize (wire host : ByteOrder) (h : CnHeader) (start : Bytes) :
    Option (CnHeader × Nat × Bytes) :=
  match ReadU8 start with
  | none => none
  | some (v, start) =>
    let h := { h with m_qIndex := v }
    match ReadU16 wire start with
    | none => none
    | some (v, start) =>
      let h := { h with m_fid := v }
      match ReadU8 start with
      | none => none
      | some (v, start) =>
        let h := { h with m_ecnBits := v }
        match ReadU16 wire start with
        | none => none
        | some (v, start) =>
          let h := assign_qfb host h v
          match ReadU16 wire start with
          | none => none
          | some (v, start) =>
            let h := assign_total host h v
            some (h, GetSerializedSize h, start)

end CnHeader

/-- A header with distinct values in every member, used to instantiate the
theorems on the codec. -/
def sampleHeader : CnHeader :=
  { m_fid := 4660, m_qIndex := 3, m_ecnBits := 2, u0 := 171, u1 := 205, u2 := 239, u3 := 1 }

end CnHeaderModel

namespace WorkloadModel

/-! ## Text input: `std::getline`, `std::string::find`, `std::stringstream` -/

/-- The lines that successive calls `std::getline (flowInput, line)` return
until the call fails: the text is cut at every `'\n'`; characters after the
last `'\n'` form a final line; nothing after the last `'\n'` yields no line. -/
def getlines : List Char → List (List Char)
  | [] => []
  | c :: cs =>
    if c = '\n' then [] :: getlines cs
    else
      match getlines cs with
      | [] => [[c]]
      | l :: ls => (c :: l) :: ls

/-- Whether `pat` occurs in the string: `s.find (pat) != std::string::npos`. -/
def found (pat : List Char) : List Char → Bool
  | [] => pat.isEmpty
  | c :: cs => pat.isPrefixOf (c :: cs) || found pat cs

/-- Function `std::isspace` in the "C" locale: space, `\t`, `\n`, `\v`, `\f`, `\r`. -/
def isspace (c : Char) : Bool :=
  c.toNat = 32 || (9 ≤ c.toNat && c.toNat ≤ 13)

/-- Decimal digit test. -/
def isdigit (c : Char) : Bool :=
  48 ≤ c.toNat && c.toNat ≤ 57

/-- State of the `std::stringstream ss (line)`: the characters not yet
extracted and the two state bits that formatted input sets (`badbit` is never
set on an in-memory stream). -/
structure StringStream where
  rest : List Char
  failbit : Bool
  eofbit : Bool
  deriving DecidableEq, Repr

namespace StringStream

/-- Declaration `std::stringstream ss (line)`. -/
def ofLine (line : List Char) : StringStream :=
  { rest := line, failbit := false, eofbit := false }

/-- Call `ss.good ()`. -/
def good (ss : StringStream) : Bool := !ss.failbit && !ss.eofbit

/-- Construction of `std::istream::sentry` with `skipws` set: on a stream that
is not good it sets `failbit`; otherwise it discards leading white space and,
when that exhausts the stream, sets `failbit | eofbit`.  The Boolean tells
whether extraction may proceed. -/
def sentry (ss : StringStream) : Bool × StringStream :=
  if ss.good then
    let r := ss.rest.dropWhile isspace
    if r.isEmpty then (false, { rest := [], failbit := true, eofbit := true })
    else (true, { ss with rest := r })
  else (false, { ss with failbit := true })

/-- Extraction `ss >> str` for a `std::string`: after the sentry, characters up to the
next white space (or the end, which sets `eofbit`) are extracted.  The token
is `none` when nothing was extracted (the variable keeps its old value). -/
def extractString (ss : StringStream) : Option (List Char) × StringStream :=
  match sentry ss with
  | (false, ss) => (none, ss)
  | (true, ss) =>
    let tok := ss.rest.takeWhile (fun c => !isspace c)
    let r := ss.rest.dropWhile (fun c => !isspace c)
    (some tok, { ss with rest := r, eofbit := r.isEmpty })

/-- Extraction `ss >> c` for an `unsigned char` (`uint8_t`): after the sentry exactly one
character is extracted and its code is stored. -/
def extractUChar (ss : StringStream) (old : Nat) : Nat × StringStream :=
  match sentry ss with
  | (false, ss) => (old, ss)
  | (true, ss) =>
    match ss.rest with
    | [] => (old, ss)
    | c :: r => (c.toNat % 256, { ss with rest := r })

/-- Value of a run of decimal digits. -/
def digitsValue (ds : List Char) : Nat :=
  ds.foldl (fun n c => 10 * n + (c.toNat - 48)) 0

/-- Extraction `ss >> n` for an unsigned integer type of `w` bits (decimal base, "C"
locale), as `std::num_get` of libstdc++ does it: an optional sign, then
decimal digits.  No digit: `0` is stored and `failbit` set.  Value above the
maximum: the maximum is stored and `failbit` set.  A leading `-` negates
modulo `2 ^ w`.  Reaching the end of the stream sets `eofbit`.  When the
sentry fails the variable keeps its old value. -/
def extractUnsigned (w : Nat) (ss : StringStream) (old : Nat) : Nat × StringStream :=
  match sentry ss with
  | (false, ss) => (old, ss)
  | (true, ss) =>
    let negative := ss.rest.head? == some '-'
    let r1 := if negative || ss.rest.head? == some '+' then ss.rest.tail else ss.rest
    let ds := r1.takeWhile isdigit
    let r2 := r1.dropWhile isdigit
    let result := digitsValue ds
    if ds.isEmpty then
      (0, { rest := r2, failbit := true, eofbit := r2.isEmpty })
    else if 2 ^ w - 1 < result then
      (2 ^ w - 1, { rest := r2, failbit := true, eofbit := r2.isEmpty })
    else
      (if negative then (2 ^ w - result) % 2 ^ w else result,
        { rest := r2, failbit := false, eofbit := r2.isEmpty })

end StringStream

/-! ## `struct FlowInfo` and the state of `workLoad` -/

/-- Record `struct FlowInfo` (cut-mpi.cc, lines 63-71); `type` holds the characters of
the C string in `char type[32]`. -/
structure FlowInfo where
  type : List Char
  srcNodeId : Nat
  srcPort : Nat
  dstNodeId : Nat
  dstPort : Nat
  priority : Nat
  msgLen : Nat
  deriving DecidableEq, Repr

/-- Arithmetic on `double` that `workLoad` uses, kept abstract: the literal
`0`, addition, division by `1e6`, and the value `std::num_get` stores into a
`double` when it extracts from the given characters. -/
structure DoubleOps (D : Type) where
  zero : D
  add : D → D → D
  div1e6 : D → D
  numGet : List Char → D

/-- Indeterminate contents of the two locals that `workLoad` declares without
an initialiser: `double phase`, and `FlowInfo flow` at the declaration that
reads record number `j` of phase number `i`.  An extraction that fails at its
sentry leaves its variable as it was, so these contents reach `startTime` and
the stored descriptors; the embedding lets them be arbitrary values. -/
structure Uninit (D : Type) where
  phase : D
  flow : Nat → Nat → FlowInfo

/-- Behaviour the C++ standard leaves undefined, reachable in `workLoad`. -/
inductive Undefined where
  /-- Access `flowInfos[batch]` with `batch` outside the vector. -/
  | vectorIndex
  /-- Evaluation of `batch ++` or `batch + 1` beyond `INT_MAX`. -/
  | signedOverflow
  /-- Extraction `ss >> flow.type` with a token of 32 or more characters (the extraction
  into the array is unbounded before C++20). -/
  | arrayOverrun
  deriving DecidableEq, Repr

/-- The variables that the loop of `workLoad` updates: the global `flowInfos`
and the locals `batch` and `startTime`. -/
structure ParseState (D : Type) where
  flowInfos : List (List FlowInfo)
  batch : Int
  startTime : D

/-- Call `flowInfos[i].emplace_back (flow)`; `none` when `i` is out of range. -/
def emplaceBackAt (flow : FlowInfo) : List (List FlowInfo) → Nat → Option (List (List FlowInfo))
  | [], _ => none
  | p :: ps, 0 => some ((p ++ [flow]) :: ps)
  | p :: ps, i + 1 => (emplaceBackAt flow ps i).map (fun ps => p :: ps)

/-- The `continue` test at the head of the loop body (cut-mpi.cc, line 200). -/
def skipLine (line : List Char) : Bool :=
  line.isEmpty || line.head? == some '#' || found "stat".toList line

/-- The test `line.find ("phase") != std::string::npos` (line 203). -/
def phaseLine (line : List Char) : Bool :=
  found "phase".toList line

/-- The value of `phase` after `ss >> type_str >> phase` (line 205). -/
def readPhase {D : Type} (ops : DoubleOps D) (un : Uninit D) (line : List Char) : D :=
  let ss := (StringStream.ofLine line).extractString.2
  match ss.sentry with
  | (false, _) => un.phase
  | (true, ss) => ops.numGet ss.rest

/-- The seven extractions of lines 213-219 into the local `flow`, whose
contents before them are `flow`. -/
def readFlow (flow : FlowInfo) (line : List Char) : Except Undefined FlowInfo :=
  let ss := StringStream.ofLine line
  -- ss >> type_str >> flow.type
  let ss := ss.extractString.2
  let (tok, ss) := ss.extractString
  if (tok.getD []).length ≥ 32 then .error .arrayOverrun else
  let flow := { flow with type := tok.getD flow.type }
  -- ss >> type_str >> flow.srcNodeId
  let ss := ss.extractString.2
  let (v, ss) := ss.extractUnsigned 32 flow.srcNodeId
  let flow := { flow with srcNodeId := v }
  -- ss >> type_str >> flow.srcPort
  let ss := ss.extractString.2
  let (v, ss) := ss.extractUnsigned 16 flow.srcPort
  let flow := { flow with srcPort := v }
  -- ss >> type_str >> flow.dstNodeId
  let ss := ss.extractString.2
  let (v, ss) := ss.extractUnsigned 32 flow.dstNodeId
  let flow := { flow with dstNodeId := v }
  -- ss >> type_str >> flow.dstPort
  let ss := ss.extractString.2
  let (v, ss) := ss.extractUnsigned 16 flow.dstPort
  let flow := { flow with dstPort := v }
  -- ss >> type_str >> flow.priority
  let ss := ss.extractString.2
  let (v, ss) := ss.extractUChar flow.priority
  let flow := { flow with priority := v }
  -- ss >> type_str >> flow.msgLen
  let ss := ss.extractString.2
  let (v, _) := ss.extractUnsigned 64 flow.msgLen
  .ok { flow with msgLen := v }

/-- One iteration of the `while` loop of `workLoad` (lines 200-221). -/
def parseLine {D : Type} (ops : DoubleOps D) (un : Uninit D) (st : ParseState D)
    (line : List Char) : Except Undefined (ParseState D) :=
  if skipLine line then .ok st
  else if phaseLine line then
    let phase := readPhase ops un line
    let startTime := if st.batch < 0 then ops.add st.startTime (ops.div1e6 phase) else st.startTime
    if st.batch = 2147483647 then .error .signedOverflow
    else .ok { flowInfos := st.flowInfos ++ [[]], batch := st.batch + 1, startTime := startTime }
  else
    let flow := un.flow st.batch.toNat ((st.flowInfos.getD st.batch.toNat []).length)
    match readFlow flow line with
    | .error e => .error e
    | .ok flow =>
      if st.batch = 2147483647 then .error .signedOverflow
      else
        let flow := { flow with dstPort := ((st.batch + 1) % 65536).toNat }
        if st.batch < 0 then .error .vectorIndex
        else
          match emplaceBackAt flow st.flowInfos st.batch.toNat with
          | none => .error .vectorIndex
          | some fi => .ok { st with flowInfos := fi }

/-- The `while (std::getline (flowInput, line))` loop over the given lines. -/
def parseLoop {D : Type} (ops : DoubleOps D) (un : Uninit D) :
    ParseState D → List (List Char) → Except Undefined (ParseState D)
  | st, [] => .ok st
  | st, line :: lines =>
    match parseLine ops un st line with
    | .error e => .error e
    | .ok st => parseLoop ops un st lines

/-- The state in which `workLoad` enters its loop: the global `flowInfos` is
empty, `batch = -1`, `startTime = 0`. -/
def initial {D : Type} (ops : DoubleOps D) : ParseState D :=
  { flowInfos := [], batch := -1, startTime := ops.zero }

/-- The parsing part of `workLoad` (lines 196-222) on a workload file of
contents `text`. -/
def workLoadParse {D : Type} (ops : DoubleOps D) (un : Uninit D) (text : List Char) :
    Except Undefined (ParseState D) :=
  parseLoop ops un (initial ops) (getlines text)

/-! ## Vocabulary of the properties -/

/-- The text whose lines are `ls`, each terminated by a newline. -/
def unlines : List (List Char) → List Char
  | [] => []
  | l :: ls => l ++ '\n' :: unlines ls

/-- A phase-marker line: not skipped, and containing "phase". -/
def isMarker (line : List Char) : Bool := !skipLine line && phaseLine line

/-- A flow-record line: neither skipped nor a phase marker. -/
def isRecord (line : List Char) : Bool := !skipLine line && !phaseLine line

/-- The text with every skipped line (empty, starting with `#`, or containing
"stat") removed. -/
def removeSkipped (text : List Char) : List Char :=
  unlines ((getlines text).filter (fun l => !skipLine l))

/-- Following the spec's words, independently of the test that `workLoad`
makes: a line to be skipped is a line that is empty, begins with `#`, or
contains the statistics marker "stat". -/
def SkippedLine (line : List Char) : Prop :=
  line = [] ∨ ['#'] <+: line ∨ "stat".toList <:+: line

instance (line : List Char) : Decidable (SkippedLine line) := by
  unfold SkippedLine; infer_instance

/-- The text from which every line to be skipped, in the sense of
`SkippedLine`, has been removed. -/
def withoutSkippedLines (text : List Char) : List Char :=
  unlines ((getlines text).filter (fun l => ¬ SkippedLine l))

/-- Every descriptor stored in phase `k` has destination port `(k + 1) mod 2^16`. -/
def PortsFollowPhase (flowInfos : List (List FlowInfo)) : Prop :=
  ∀ (k : Nat) (p : List FlowInfo) (f : FlowInfo),
    flowInfos[k]? = some p → f ∈ p → f.dstPort = (k + 1) % 65536

/-- The lines that follow phase marker number `i` (zero-based). -/
def afterMarker : Nat → List (List Char) → List (List Char)
  | _, [] => []
  | 0, l :: ls => if isMarker l then ls else afterMarker 0 ls
  | i + 1, l :: ls => if isMarker l then afterMarker i ls else afterMarker (i + 1) ls

/-- The flow-record lines textually between phase marker number `i` and the
next phase marker (or the end of the input), in their textual order. -/
def recordsOfPhase (i : Nat) (lines : List (List Char)) : List (List Char) :=
  ((afterMarker i lines).takeWhile (fun l => !isMarker l)).filter isRecord

/-- The descriptor `f` is what `workLoad` stores in phase `i` for the record
`line`: the result of the seven extractions, with the destination port
replaced. -/
def StoredFrom (i : Nat) (f : FlowInfo) (line : List Char) : Prop :=
  ∃ flow f0 : FlowInfo, readFlow flow line = .ok f0 ∧
    f = { f0 with dstPort := (i + 1) % 65536 }

/-- What holds after the loop has read the lines `ls` from the initial state. -/
def ReadSoFar {D : Type} (st : ParseState D) (ls : List (List Char)) : Prop :=
  st.batch + 1 = st.flowInfos.length ∧
  st.flowInfos.length = (ls.filter isMarker).length ∧
  ∀ (i : Nat) (p : List FlowInfo), st.flowInfos[i]? = some p →
    List.Forall₂ (StoredFrom i) p (recordsOfPhase i ls)

/-- The token that `ss >> type_str >> flow.type` puts into `flow.type`
(empty when there is none). -/
def typeToken (line : List Char) : List Char :=
  ((StringStream.ofLine line).extractString.2.extractString.1).getD []

/-- A sufficient condition for the loop of `workLoad` to stay clear of
undefined behaviour: no flow record precedes the first phase marker, there
are fewer than `2 ^ 31` phase markers, and the type token of every flow record
fits `char type[32]`. -/
def Defined (lines : List (List Char)) : Prop :=
  ((lines.takeWhile (fun l => !isMarker l)).filter isRecord = []) ∧
  (lines.filter isMarker).length < 2147483647 ∧
  ∀ l ∈ lines, isRecord l = true → (typeToken l).length < 32

/-! ## Instances used to evaluate the embedding -/

/-- A `double` computation recorded as a term instead of being carried out. -/
inductive SymDouble where
  | zero
  | add (a b : SymDouble)
  | div1e6 (a : SymDouble)
  | numGet (cs : List Char)
  | indeterminate
  deriving DecidableEq, Repr

/-- The `double` operations on `SymDouble`. -/
def symbolicOps : DoubleOps SymDouble :=
  { zero := .zero, add := .add, div1e6 := .div1e6, numGet := .numGet }

/-- One choice of contents for the uninitialised locals. -/
def garbage : Uninit SymDouble :=
  { phase := .indeterminate,
    flow := fun _ _ =>
      { type := ['?'], srcNodeId := 57005, srcPort := 57005, dstNodeId := 57005,
        dstPort := 57005, priority := 173, msgLen := 57005 } }

/-- A flow record of the documented shape. -/
def recordLine : List Char :=
  "type x src 1 sport 2 dst 3 dport 4 prio 3 size 1448".toList

/-- A flow record of the documented shape with a two-digit priority. -/
def recordLinePrio10 : List Char :=
  "type x src 1 sport 2 dst 3 dport 4 prio 10 size 1448".toList

/-- A workload whose only line is a flow record: no phase marker precedes it. -/
def recordBeforePhase : List Char := unlines [recordLine]

/-- A workload of one phase holding the record `recordLine`. -/
def onePhaseOneRecord : List Char := unlines ["phase 0".toList, recordLine]

/-- A workload of one phase holding the record `recordLinePrio10`. -/
def onePhasePrio10 : List Char := unlines ["phase 0".toList, recordLinePrio10]

/-- A workload of one phase holding a line with a single token. -/
def tooFewTokens : List Char := unlines ["phase 0".toList, "foo".toList]

/-- A workload of one phase holding a record whose source node is not a number. -/
def nonNumericToken : List Char :=
  unlines ["phase 0".toList, "type x src abc sport 2 dst 3 dport 4 prio 3 size 1448".toList]

/-- A workload of 65536 phase markers followed by one flow record. -/
def manyPhases : List Char :=
  unlines (List.replicate 65536 "phase 0".toList ++ [recordLine])

/-- A workload with a comment, an empty line, a statistics line that also
contains "phase", two phases and one record in each. -/
def sampleWorkload : List Char :=
  unlines ["# demo".toList, "phase 100".toList,
    "type a src 0 sport 5 dst 9 dport 7 prio 1 size 3000".toList, [],
    "stat phase 9".toList, "phase 0".toList,
    "type b src 8 sport 5 dst 1 dport 7 prio 2 size 1448".toList]

/-- The state in which the loop of `workLoad` ends on `sampleWorkload`. -/
def sampleState : ParseState SymDouble :=
  { flowInfos :=
      [[{ type := ['a'], srcNodeId := 0, srcPort := 5, dstNodeId := 9, dstPort := 1,
          priority := 49, msgLen := 3000 }],
       [{ type := ['b'], srcNodeId := 8, srcPort := 5, dstNodeId := 1, dstPort := 2,
          priority := 50, msgLen := 1448 }]],
    batch := 1,
    startTime := .add .zero (.div1e6 (.numGet "100".toList)) }

end WorkloadModel

namespace SchedulerModel
open WorkloadModel (FlowInfo)

/-!
The scheduler is embedded as seen by one process of the group.  The values
that the calls of `MPI_Allreduce` deliver to this process are an input of the
embedding, given as a list in the order of the calls.  The calls to the
simulator and to MPI are recorded in a trace; `Simulator::Run ()` is recorded
and returns, and the events it would process are the later calls of
`flowRx_cb`.
-/

/-! ## Global configuration and the owner of a node -/

/-- The globals `SPINE`, `LEAF`, `SERVER`, `DST` of cut-mpi.cc (lines 56-59),
all `uint16_t`. -/
structure Config where
  SPINE : Nat
  LEAF : Nat
  SERVER : Nat
  DST : Nat
  deriving DecidableEq, Repr

/-- Every global of the configuration holds a `uint16_t` value. -/
def Config.InRange (cfg : Config) : Prop :=
  cfg.SPINE < 65536 ∧ cfg.LEAF < 65536 ∧ cfg.SERVER < 65536 ∧ cfg.DST < 65536

instance (cfg : Config) : Decidable cfg.InRange := by
  unfold Config.InRange; infer_instance

/-- Behaviour the C++ standard leaves undefined, reachable in `CreateFlow`,
`LoadFlow` and `LoadWait`. -/
inductive Fault where
  /-- Division or remainder by zero. -/
  | divisionByZero
  /-- Evaluation of `SERVER*LEAF` beyond `INT_MAX` (the operands are promoted to `int`). -/
  | signedOverflow
  /-- Access to a `std::vector` or node container outside its bounds. -/
  | outOfRange
  deriving DecidableEq, Repr

/-- The subexpression `SERVER*LEAF/DST` (lines 85, 86, 134): the `uint16_t`
operands are promoted to `int`, so product and quotient are `int` operations. -/
def shardExpr (cfg : Config) : Except Fault Nat :=
  if 2147483647 < cfg.SERVER * cfg.LEAF then .error .signedOverflow
  else if cfg.DST = 0 then .error .divisionByZero
  else .ok (cfg.SERVER * cfg.LEAF / cfg.DST)

/-- The expression `nodeId / (SERVER*LEAF/DST)` with `nodeId` a `uint32_t`:
the divisor is converted to `unsigned int` and the division is unsigned. -/
def ownerExpr (cfg : Config) (nodeId : Nat) : Except Fault Nat :=
  match shardExpr cfg with
  | .error e => .error e
  | .ok shard => if shard = 0 then .error .divisionByZero else .ok (nodeId / shard)

/-! ## Applications installed by `CreateFlow` -/

/-- The two callbacks that `CreateFlow` connects to the trace source
`RxWithAddresses` of a sink. -/
inductive Callback where
  | SinkTrace
  | flowRx_cb
  deriving DecidableEq, Repr

/-- An application installed on the server `server` of leaf `leaf`. -/
inductive App where
  /-- The `OnOffApplication` of lines 95-102: always on, `MaxBytes` bytes to
  the server `remoteServer` of leaf `remoteLeaf`, port `port`. -/
  | onOff (leaf server remoteLeaf remoteServer port maxBytes : Nat)
  /-- The `PacketSink` of lines 110-118 listening on `port`, with the
  callbacks connected to `RxWithAddresses`. -/
  | packetSink (leaf server port : Nat) (rx : List Callback)
  deriving DecidableEq, Repr

/-- A send-side endpoint. -/
def App.isSender : App → Bool
  | .onOff .. => true
  | .packetSink .. => false

/-- A receive-side endpoint whose arrivals call `flowRx_cb`. -/
def App.isReceiver : App → Bool
  | .onOff .. => false
  | .packetSink _ _ _ rx => rx.contains .flowRx_cb

/-- What one process knows of itself and of the group: the configuration
globals, `MpiInterface::GetSystemId ()` and `MpiInterface::GetSize ()`. -/
structure Env where
  cfg : Config
  systemId : Nat
  size : Nat
  deriving DecidableEq, Repr

/-- Function `CreateFlow` (cut-mpi.cc, lines 80-128): the applications it
installs, in order.  `main` sizes `serverNodes` and `serverInterfaces` to
`LEAF` containers of `SERVER` entries each (lines 324-326, 387, 415-423);
indexing outside them is undefined. -/
def CreateFlow (env : Env) (flow : FlowInfo) : Except Fault (List App) :=
  match ownerExpr env.cfg flow.srcNodeId with
  | .error e => .error e
  | .ok srcSystemId =>
    match ownerExpr env.cfg flow.dstNodeId with
    | .error e => .error e
    | .ok dstSystemId =>
      if env.cfg.SERVER = 0 then .error .divisionByZero
      else
        let srcLeaf := flow.srcNodeId / env.cfg.SERVER % 65536
        let dstLeaf := flow.dstNodeId / env.cfg.SERVER % 65536
        let srcServer := flow.srcNodeId % env.cfg.SERVER % 65536
        let dstServer := flow.dstNodeId % env.cfg.SERVER % 65536
        let inRange := fun (leaf server : Nat) => leaf < env.cfg.LEAF ∧ server < env.cfg.SERVER
        -- if (systemId == srcSystemId)
        if env.systemId = srcSystemId ∧
            ¬ (inRange dstLeaf dstServer ∧ inRange srcLeaf srcServer)
        then .error .outOfRange
        else
          let sender :=
            if env.systemId = srcSystemId then
              [App.onOff srcLeaf srcServer dstLeaf dstServer flow.dstPort flow.msgLen]
            else []
          -- if (systemId == dstSystemId)
          if env.systemId = dstSystemId ∧ ¬ inRange dstLeaf dstServer then .error .outOfRange
          else
            let receiver :=
              if env.systemId = dstSystemId then
                [App.packetSink dstLeaf dstServer flow.dstPort
                  [Callback.SinkTrace, Callback.flowRx_cb]]
              else []
            .ok (sender ++ receiver)

/-! ## The phase scheduler: `LoadFlow`, `LoadWait`, `flowRx_cb` -/

/-- What the scheduler does to its collaborators, in order of occurrence. -/
inductive Action where
  /-- Assignment `phaseStartTimes[BatchCur] = Simulator::Now ()` for phase `k`. -/
  | phaseStart (k : Nat)
  /-- An application installed by `CreateFlow`. -/
  | install (app : App)
  /-- Call of `MPI_Allreduce` in `LoadWait`: the vote of this process. -/
  | allreduce
  /-- Call of `Simulator::Stop ()`. -/
  | stop
  /-- Call of `MPI_Barrier`. -/
  | barrier
  /-- Call of `Simulator::Run ()`. -/
  | run
  deriving DecidableEq, Repr

/-- The globals `flowInfos`, `packets`, `BatchCur`, `flowCom` (lines 62, 72-74)
and the actions performed so far. -/
structure Sched where
  flowInfos : List (List FlowInfo)
  packets : Nat
  BatchCur : Nat
  flowCom : Nat
  trace : List Action
  deriving DecidableEq, Repr

/-- How a call ends: it returns, it never returns from `MPI_Allreduce` (no
further reduction completes), or it reaches undefined behaviour. -/
inductive Outcome where
  | done (st : Sched)
  | blocked (st : Sched)
  | undefined (f : Fault)
  deriving DecidableEq, Repr

/-- The number of segments `flow.msgLen/1448+((flow.msgLen%1448)>0?1:0)` of line 135. -/
def segments (msgLen : Nat) : Nat :=
  msgLen / 1448 + (if msgLen % 1448 > 0 then 1 else 0)

/-- The `for` loop of `LoadFlow` (lines 132-136) over the flows of a phase. -/
def installFlows (env : Env) : List FlowInfo → Sched → Except Fault Sched
  | [], st => .ok st
  | flow :: flows, st =>
    match CreateFlow env flow with
    | .error e => .error e
    | .ok apps =>
      let st := { st with trace := st.trace ++ apps.map Action.install }
      match ownerExpr env.cfg flow.dstNodeId with
      | .error e => .error e
      | .ok dstOwner =>
        let st :=
          if env.systemId = dstOwner then
            { st with packets := (st.packets + segments flow.msgLen) % 4294967296 }
          else st
        installFlows env flows st

/-- Function `LoadFlow` (lines 130-139), with its call of `LoadWait` passed in
as `loadWait`. -/
def LoadFlowWith (env : Env) (loadWait : Sched → Outcome) (st : Sched) : Outcome :=
  let st := { st with trace := st.trace ++ [Action.phaseStart st.BatchCur] }
  match st.flowInfos[st.BatchCur]? with
  | none => .undefined .outOfRange
  | some phase =>
    match installFlows env phase st with
    | .error e => .undefined e
    | .ok st => if st.packets = 0 then loadWait st else .done st

/-- The end of `LoadWait` (lines 168-170), reached when its call of `LoadFlow`
returns: the second barrier and `Simulator::Run ()`. -/
def resumeRun : Outcome → Outcome
  | .done st => .done { st with trace := st.trace ++ [Action.barrier, Action.run] }
  | o => o

/-- Function `LoadWait` (lines 141-175).  The list holds the values that the
coming calls of `MPI_Allreduce` deliver to this process, in order; when it is
exhausted the call does not return. -/
def LoadWait (env : Env) : List Nat → Sched → Outcome
  | [], st => .blocked { st with trace := st.trace ++ [Action.allreduce] }
  | globalDone :: later, st =>
    let st := { st with trace := st.trace ++ [Action.allreduce] }
    if globalDone = env.size then
      let st := { st with trace := st.trace ++ [Action.stop] }
      let st := { st with BatchCur := (st.BatchCur + 1) % 65536 }
      if st.BatchCur < st.flowInfos.length then
        let st := { st with flowCom := 0, packets := 0 }
        let st := { st with trace := st.trace ++ [Action.barrier] }
        resumeRun (LoadFlowWith env (LoadWait env later) st)
      else .done st
    else .done st

/-- Function `LoadFlow` (lines 130-139). -/
def LoadFlow (env : Env) (reductions : List Nat) (st : Sched) : Outcome :=
  LoadFlowWith env (LoadWait env reductions) st

/-- Function `flowRx_cb` (lines 176-188). -/
def flowRx_cb (env : Env) (reductions : List Nat) (st : Sched) : Outcome :=
  let st := { st with flowCom := (st.flowCom + 1) % 4294967296 }
  if st.flowCom ≥ st.packets then LoadWait env reductions st else .done st

/-- The shard size `SERVER * LEAF / DST` as a natural number. -/
def Config.shard (cfg : Config) : Nat := cfg.SERVER * cfg.LEAF / cfg.DST

/-- The flows of a phase whose destination node is owned by process `env.systemId`. -/
def ownedReceivers (env : Env) (phase : List FlowInfo) : List FlowInfo :=
  phase.filter (fun f => f.dstNodeId / env.cfg.shard = env.systemId)

/-- The sum, over the owned receive-side flows of a phase, of
`ceil (msgLen / 1448)`. -/
def expectedArrivals (env : Env) (phase : List FlowInfo) : Nat :=
  ((ownedReceivers env phase).map (fun f => (f.msgLen + 1447) / 1448)).sum

/-- The trace of an outcome that is not undefined behaviour. -/
def Outcome.state? : Outcome → Option Sched
  | .done st => some st
  | .blocked st => some st
  | .undefined _ => none

/-- The indices of the phases loaded in a trace, in order. -/
def loadedPhases (trace : List Action) : List Nat :=
  trace.filterMap (fun a => match a with
    | .phaseStart k => some k
    | _ => none)

/-- From `st` to `s` the global `flowInfos` is unchanged and the phases loaded
are those among `first`, `first + 1`, ... (`count` indices) that exist in the
plan, in this order. -/
def LoadsInOrder (st s : Sched) (first count : Nat) : Prop :=
  s.flowInfos = st.flowInfos ∧
  ∃ t : List Action, s.trace = st.trace ++ t ∧
    loadedPhases t = (List.range' first count).filter (fun k => k < st.flowInfos.length)

/-- What a call in the state `Finished` may do: vote and stop the simulator. -/
def quietAction : Action → Bool
  | .allreduce => true
  | .stop => true
  | _ => false

/-- A sequence of arrivals: `flowRx_cb` is called once per element, which
holds the values of the reductions that complete during that call. -/
def arrivals (env : Env) : List (List Nat) → Sched → Outcome
  | [], st => .done st
  | r :: rs, st =>
    match flowRx_cb env r st with
    | .done st => arrivals env rs st
    | o => o

/-- The constant `NS_COLOR` (line 28). -/
def NS_COLOR : Int := 1

/-- The constant `NOT_NS_COLOR` (line 29). -/
def NOT_NS_COLOR : Int := NS_COLOR + 1

/-- Where `main` stands after line 311. -/
inductive MainOutcome where
  /-- Execution of `main` ended with `return code` at line 256 or 310; no
  statement after line 311 is executed. -/
  | returned (code : Int)
  /-- Execution continues at line 312: topology, workload, simulation. -/
  | simulates
  deriving DecidableEq, Repr

/-- The variables that lines 247-311 of `main` set, and where `main` stands. -/
structure MainStart where
  DST : Nat
  color : Option Int
  split : Bool
  outcome : MainOutcome
  deriving DecidableEq, Repr

/-- Lines 247-311 of `main` for a process of rank `worldRank` among
`worldSize`.  `DST` is the value that the global `DST` holds when `main`
starts: the configured number of processes, which is the initialiser of line
59 (and in simple-distributed-mpi-comm.cc the value of the option `dst`).
`logOpen` tells whether the log file could be opened.  `color` is `none`
while it still holds `MPI_UNDEFINED`; `split` tells whether `MPI_Comm_split`
was called. -/
def mainStart (DST : Nat) (worldSize worldRank : Int) (logOpen : Bool) : MainStart :=
  let g : MainStart := { DST := DST, color := none, split := false, outcome := .simulates }
  -- DST=worldSize;
  let g := { g with DST := (worldSize % 65536).toNat }
  if !logOpen then { g with outcome := .returned 1 }
  else
    let color : Int :=
      if worldSize = (g.DST : Int) then NS_COLOR
      else if worldRank < (g.DST : Int) then NS_COLOR else NOT_NS_COLOR
    let g := { g with color := some color, split := !decide (worldSize = (g.DST : Int)) }
    if color ≠ NS_COLOR then { g with outcome := .returned 0 }
    else g

/-! ## The topology table and the placement of the nodes -/

/-- The table `topo` (lines 49-55).  It is declared as `topo[7][3]` and its
initialiser lists six rows: the seventh row is zero-initialised. -/
def topo : List (List Nat) :=
  [[4, 8, 8], [4, 16, 8], [8, 32, 8], [16, 64, 8], [32, 128, 8], [64, 256, 8], [0, 0, 0]]

/-- The globals after lines 238-240 of `main`,
`SPINE=topo[topo_select][0]; LEAF=topo[topo_select][1]; SERVER=topo[topo_select][2];`,
and the assignment of `DST` at line 250.  Reading a row outside the table is
undefined. -/
def selectTopo (topo_select : Nat) (DST : Nat) : Except Fault Config :=
  match topo[topo_select]? with
  | some [spine, leaf, server] =>
    .ok { SPINE := spine, LEAF := leaf, SERVER := server, DST := DST }
  | _ => .error .outOfRange

/-- The local `uint16_t leafP=LEAF/DST;` of `main` (line 321). -/
def leafP (cfg : Config) : Except Fault Nat :=
  if cfg.DST = 0 then .error .divisionByZero else .ok (cfg.LEAF / cfg.DST % 65536)

/-- The loop of lines 325-329 of `main`: for every leaf `i < LEAF` the call
`serverNodes[i].Create(SERVER, i/leafP)` creates `SERVER` nodes with system id
`i/leafP`.  The result lists, for every leaf, the system ids of its server
nodes. -/
def createServerNodes (cfg : Config) : Except Fault (List (List Nat)) :=
  match leafP cfg with
  | .error e => .error e
  | .ok p =>
    -- `i/leafP` is evaluated in every iteration, the first one included
    if 0 < cfg.LEAF ∧ p = 0 then .error .divisionByZero
    else .ok ((List.range cfg.LEAF).map (fun i => List.replicate cfg.SERVER (i / p)))

/-- The system id of the node `serverNodes[leaf].Get(server)`. -/
def systemIdOf (nodes : List (List Nat)) (leaf server : Nat) : Option Nat :=
  match nodes[leaf]? with
  | none => none
  | some row => row[server]?

/-! ## The plan from the call of `LoadFlow` in `workLoad` onwards -/

/-- Every flow of the plan can be installed on this process: `CreateFlow`
completes for it. -/
def Installable (env : Env) (plan : List (List FlowInfo)) : Prop :=
  ∀ phase ∈ plan, ∀ flow ∈ phase, ∃ apps, CreateFlow env flow = .ok apps

/-- From `st` to `s` the global `flowInfos` is unchanged and every call of
`LoadFlow` was made with `BatchCur` less than the number of phases. -/
def LoadsExisting (st s : Sched) : Prop :=
  s.flowInfos = st.flowInfos ∧
  ∃ t : List Action, s.trace = st.trace ++ t ∧
    ∀ k ∈ loadedPhases t, k < st.flowInfos.length

/-- The call `LoadFlow(startTime)` that ends `workLoad` (line 223), with the
globals as initialised (lines 62, 73, 74) and `flowInfos` the parsed plan,
followed by the calls of `flowRx_cb` that the run loop makes.  `first` holds
the reductions that complete during the call of `LoadFlow`. -/
def afterWorkLoad (env : Env) (plan : List (List FlowInfo)) (first : List Nat)
    (evs : List (List Nat)) : Outcome :=
  match LoadFlow env first
      { flowInfos := plan, packets := 0, BatchCur := 0, flowCom := 0, trace := [] } with
  | .done st => arrivals env evs st
  | o => o

/-! ## Instances used to evaluate the scheduler -/

/-- A group of one process on the topology `{4, 8, 8}`: it owns every node. -/
def soloEnv : Env :=
  { cfg := { SPINE := 4, LEAF := 8, SERVER := 8, DST := 1 }, systemId := 0, size := 1 }

/-- Process 0 of a group of two on the topology `{4, 8, 8}`: it owns the
nodes 0..31. -/
def pairEnv : Env :=
  { cfg := { SPINE := 4, LEAF := 8, SERVER := 8, DST := 2 }, systemId := 0, size := 2 }

/-- A flow of 1448 bytes from node 0 to node 1. -/
def flow1448 : FlowInfo :=
  { type := ['x'], srcNodeId := 0, srcPort := 1, dstNodeId := 1, dstPort := 1, priority := 48,
    msgLen := 1448 }

/-- A flow of 3000 bytes from node 40 to node 2. -/
def flow3000 : FlowInfo :=
  { type := ['x'], srcNodeId := 40, srcPort := 1, dstNodeId := 2, dstPort := 1, priority := 48,
    msgLen := 3000 }

/-- A flow of 1448 bytes from node 1 to node 40. -/
def flowAway : FlowInfo :=
  { type := ['x'], srcNodeId := 1, srcPort := 1, dstNodeId := 40, dstPort := 1, priority := 48,
    msgLen := 1448 }

/-- A flow of `1448 * 2 ^ 32` bytes from node 40 to node 1. -/
def hugeFlow : FlowInfo :=
  { type := ['x'], srcNodeId := 40, srcPort := 1, dstNodeId := 1, dstPort := 1, priority := 48,
    msgLen := 6219112644608 }

/-- A flow of 0 bytes from node 0 to node 1. -/
def zeroFlow : FlowInfo :=
  { type := ['x'], srcNodeId := 0, srcPort := 1, dstNodeId := 1, dstPort := 1, priority := 48,
    msgLen := 0 }

/-- The globals before the first call of `LoadFlow`, for a given plan. -/
def idle (plan : List (List FlowInfo)) : Sched :=
  { flowInfos := plan, packets := 0, BatchCur := 0, flowCom := 0, trace := [] }

/-- The globals after the only phase of the plan `[[flow1448]]` has completed
on `soloEnv`. -/
def finishedState : Sched :=
  { flowInfos := [[flow1448]], packets := 1, BatchCur := 1, flowCom := 1, trace := [] }

/-- The globals in a phase of three expected segments, before any arrival. -/
def awaitingThree : Sched :=
  { flowInfos := [[flow3000]], packets := 3, BatchCur := 0, flowCom := 0, trace := [] }

/-- The globals during the last phase of a plan of 65536 phases. -/
def lastOf65536 : Sched :=
  { flowInfos := [flow1448] :: List.replicate 65535 [], packets := 0, BatchCur := 65535,
    flowCom := 0, trace := [] }

/-- The globals when the first of the two phases of the plan
`[[flow1448], [flow3000]]` has received its only segment. -/
def firstOfTwoDone : Sched :=
  { flowInfos := [[flow1448], [flow3000]], packets := 1, BatchCur := 0, flowCom := 1,
    trace := [] }

end SchedulerModel

/-! # Properties of the wire header codec -/

namespace CnHeaderModel
open CnHeader

/-- C1: for every header whose members are in the range of their types,
`Deserialize` applied to the eight bytes written by `Serialize` succeeds,
consumes exactly those bytes, and yields a header with the same `GetFlow`,
`GetQindex`, `GetECNBits`, `GetQfb` and `GetTotal` (whatever byte order
`WriteU16`/`ReadU16` use, and on hosts of either byte order). -/
theorem deserialize_serialize_getters (wire host : ByteOrder) (h self : CnHeader)
    (rest : Bytes) (hr : h.InRange) :
    ∃ h', Deserialize wire host self (Serialize wire host h [] ++ rest) = some (h', 8, rest) ∧
      h'.GetFlow = h.GetFlow ∧ h'.GetQindex = h.GetQindex ∧ h'.GetECNBits = h.GetECNBits ∧
      h'.GetQfb host = h.GetQfb host ∧ h'.GetTotal host = h.GetTotal host := by
  obtain ⟨h1, h2, h3, h4, h5, h6, h7⟩ := hr
  cases wire <;> cases host <;>
    simp [Deserialize, Serialize, WriteU8, WriteU16, ReadU8, ReadU16, store16, load16,
      assign_qfb, assign_total, GetFlow, GetQindex, GetECNBits, GetQfb, GetTotal,
      CnHeader.m_qfb, CnHeader.m_total, GetSerializedSize] <;> omega

/-- Witness for C1 at `sampleHeader`, little-endian host, big-endian wire. -/
theorem deserialize_serialize_getters_witness :
    sampleHeader.InRange ∧
    ∃ h', Deserialize .big .little (CnHeader.new .little 0 0 0 0 0)
        (Serialize .big .little sampleHeader [] ++ [7]) = some (h', 8, [7]) ∧
      h'.GetFlow = sampleHeader.GetFlow ∧ h'.GetQindex = sampleHeader.GetQindex ∧
      h'.GetECNBits = sampleHeader.GetECNBits ∧
      h'.GetQfb .little = sampleHeader.GetQfb .little ∧
      h'.GetTotal .little = sampleHeader.GetTotal .little :=
  ⟨by decide, deserialize_serialize_getters .big .little sampleHeader _ [7] (by decide)⟩

/-- C2: `GetSerializedSize` is 8; `Serialize` appends exactly eight bytes:
byte 0 is the queue index, bytes 1-2 encode the flow id, byte 3 is the ECN
bits, bytes 4-5 encode the feedback value and bytes 6-7 the total; and
`Deserialize`, given at least eight bytes, returns 8 and consumes exactly
eight bytes. -/
theorem serialize_layout (wire host : ByteOrder) (h : CnHeader) (start : Bytes)
    (hr : h.InRange) :
    h.GetSerializedSize = 8 ∧
    (Serialize wire host h start).length = start.length + 8 ∧
    (∃ b1 b2 b4 b5 b6 b7 : Nat,
      Serialize wire host h start =
        start ++ [h.GetQindex, b1, b2, h.GetECNBits, b4, b5, b6, b7] ∧
      (b1 < 256 ∧ b2 < 256 ∧ b4 < 256 ∧ b5 < 256 ∧ b6 < 256 ∧ b7 < 256) ∧
      load16 wire b1 b2 = h.GetFlow ∧
      load16 wire b4 b5 = h.GetQfb host ∧
      load16 wire b6 b7 = h.GetTotal host) ∧
    (∀ (self : CnHeader) (c0 c1 c2 c3 c4 c5 c6 c7 : Nat) (rest : Bytes),
      ∃ h', Deserialize wire host self (c0 :: c1 :: c2 :: c3 :: c4 :: c5 :: c6 :: c7 :: rest) =
        some (h', 8, rest)) := by
  obtain ⟨h1, h2, h3, h4, h5, h6, h7⟩ := hr
  refine ⟨rfl, ?_, ?_, ?_⟩
  · simp [Serialize, WriteU8, WriteU16]
  · refine ⟨(store16 wire h.m_fid).1, (store16 wire h.m_fid).2,
      (store16 wire (h.m_qfb host)).1, (store16 wire (h.m_qfb host)).2,
      (store16 wire (h.m_total host)).1, (store16 wire (h.m_total host)).2, ?_, ?_, ?_, ?_, ?_⟩
    · cases wire <;>
        simp [Serialize, WriteU8, WriteU16, store16, GetQindex, GetECNBits,
          Nat.mod_eq_of_lt h2, Nat.mod_eq_of_lt h3, Nat.mod_mod]
    · cases wire <;> simp [store16] <;> omega
    · cases wire <;> simp [store16, load16, GetFlow] <;> omega
    · cases wire <;> cases host <;>
        simp [store16, load16, GetQfb, CnHeader.m_qfb] <;> omega
    · cases wire <;> cases host <;>
        simp [store16, load16, GetTotal, CnHeader.m_total] <;> omega
  · intro self c0 c1 c2 c3 c4 c5 c6 c7 rest
    simp [Deserialize, ReadU8, ReadU16, GetSerializedSize]

/-- Witness for C2 at `sampleHeader`, with the bytes written under either
byte order of `WriteU16`. -/
theorem serialize_layout_witness :
    sampleHeader.InRange ∧
    Serialize .big .little sampleHeader [] = [3, 18, 52, 2, 205, 171, 1, 239] ∧
    Serialize .little .little sampleHeader [] = [3, 52, 18, 2, 171, 205, 239, 1] ∧
    (Serialize .big .little sampleHeader [9]).length = [9].length + 8 :=
  ⟨by decide, by decide, by decide,
    (serialize_layout .big .little sampleHeader [9] (by decide)).2.1⟩

/-- C3 (with the byte order of `WriteU16` as the spec gives it,
`networkOrder`): for every header in range, the flow id, the feedback value
and the total are each written most significant byte first. -/
theorem serialize_network_order (host : ByteOrder) (h : CnHeader) (start : Bytes)
    (hr : h.InRange) :
    Serialize networkOrder host h start =
      start ++ [h.GetQindex,
        h.GetFlow / 256, h.GetFlow % 256,
        h.GetECNBits,
        h.GetQfb host / 256, h.GetQfb host % 256,
        h.GetTotal host / 256, h.GetTotal host % 256] := by
  obtain ⟨h1, h2, h3, h4, h5, h6, h7⟩ := hr
  have e1 : h.m_fid / 256 % 256 = h.m_fid / 256 := by omega
  have e2 : h.m_qfb host / 256 % 256 = h.m_qfb host / 256 := by
    cases host <;> simp only [CnHeader.m_qfb, load16] <;> omega
  have e3 : h.m_total host / 256 % 256 = h.m_total host / 256 := by
    cases host <;> simp only [CnHeader.m_total, load16] <;> omega
  simp [Serialize, WriteU8, WriteU16, store16, networkOrder, GetFlow, GetQfb, GetTotal,
    GetQindex, GetECNBits, Nat.mod_eq_of_lt h2, Nat.mod_eq_of_lt h3, e1, e2, e3]

/-- Witness for C3 at `sampleHeader`: flow id `0x1234` is written `0x12 0x34`. -/
theorem serialize_network_order_witness :
    sampleHeader.InRange ∧
    Serialize networkOrder .little sampleHeader [] =
      [] ++ [sampleHeader.GetQindex,
        sampleHeader.GetFlow / 256, sampleHeader.GetFlow % 256,
        sampleHeader.GetECNBits,
        sampleHeader.GetQfb .little / 256, sampleHeader.GetQfb .little % 256,
        sampleHeader.GetTotal .little / 256, sampleHeader.GetTotal .little % 256] ∧
    Serialize networkOrder .little sampleHeader [] = [3, 18, 52, 2, 205, 171, 1, 239] :=
  ⟨by decide, serialize_network_order .little sampleHeader [] (by decide), by decide⟩

/-- C4: the sequence-number view and the (feedback, total) view are the same
four bytes.  After `SetSeq (s)` with `s < 2 ^ 32`, `GetQfb` and `GetTotal`
return the two 16-bit halves of `s` (low half first on a little-endian host,
high half first on a big-endian one) and `GetSeq` returns `s`; after
`SetQfb (q)` and `SetTotal (t)`, in either order, `GetSeq` returns the word
whose halves are `q` and `t`; `SetSeq` leaves flow id, queue index and ECN
bits unchanged. -/
theorem seq_view_aliases_qfb_total (host : ByteOrder) (h : CnHeader) (s q t : Nat)
    (hs : s < 2 ^ 32) (hq : q < 65536) (ht : t < 65536) :
    ((h.SetSeq host s).GetSeq host = s ∧
      (h.SetSeq host s).GetQfb host = (match host with
        | .little => s % 65536 | .big => s / 65536) ∧
      (h.SetSeq host s).GetTotal host = (match host with
        | .little => s / 65536 | .big => s % 65536)) ∧
    (((h.SetQfb host q).SetTotal host t).GetSeq host = (match host with
        | .little => q + 65536 * t | .big => 65536 * q + t) ∧
      ((h.SetTotal host t).SetQfb host q).GetSeq host =
        ((h.SetQfb host q).SetTotal host t).GetSeq host) ∧
    ((h.SetSeq host s).GetFlow = h.GetFlow ∧
      (h.SetSeq host s).GetQindex = h.GetQindex ∧
      (h.SetSeq host s).GetECNBits = h.GetECNBits) := by
  refine ⟨?_, ?_, ?_⟩
  · cases host <;>
      simp [SetSeq, assign_seq, GetSeq, GetQfb, GetTotal, CnHeader.m_seq, CnHeader.m_qfb,
        CnHeader.m_total, store32, load32, load16] <;> omega
  · cases host <;>
      simp [SetQfb, SetTotal, assign_qfb, assign_total, GetSeq, CnHeader.m_seq, store16,
        load32] <;> omega
  · simp [SetSeq, assign_seq, GetFlow, GetQindex, GetECNBits]

/-- Witness for C4: on a little-endian host `SetSeq (0x12345678)` makes
`GetQfb` return `0x5678` and `GetTotal` return `0x1234`. -/
theorem seq_view_aliases_qfb_total_witness :
    (305419896 < 2 ^ 32 ∧ 22136 < 65536 ∧ 4660 < 65536) ∧
    (sampleHeader.SetSeq .little 305419896).GetQfb .little = 22136 ∧
    (sampleHeader.SetSeq .little 305419896).GetTotal .little = 4660 ∧
    ((sampleHeader.SetQfb .little 22136).SetTotal .little 4660).GetSeq .little = 305419896 :=
  ⟨by decide,
    (seq_view_aliases_qfb_total .little sampleHeader 305419896 22136 4660
      (by decide) (by decide) (by decide)).1.2.1,
    (seq_view_aliases_qfb_total .little sampleHeader 305419896 22136 4660
      (by decide) (by decide) (by decide)).1.2.2,
    (seq_view_aliases_qfb_total .little sampleHeader 305419896 22136 4660
      (by decide) (by decide) (by decide)).2.1.1⟩

end CnHeaderModel

/-! # Properties of the workload parser -/

namespace WorkloadModel

/-! ### Lemmas on `getlines` -/

/-- No line returned by `getlines` contains a newline. -/
theorem getlines_no_newline (text : List Char) :
    ∀ l ∈ getlines text, '\n' ∉ l := by
  induction text with
  | nil => simp [getlines]
  | cons c cs ih =>
    intro l hl
    unfold getlines at hl
    split at hl
    · rcases List.mem_cons.1 hl with h | h
      · subst h; simp
      · exact ih l h
    · rename_i hc
      split at hl
      · rename_i heq
        simp at hl; subst hl
        simp; exact fun h => hc h.symm
      · rename_i l0 ls heq
        rw [heq] at ih
        rcases List.mem_cons.1 hl with h | h
        · subst h
          have := ih l0 (by simp)
          simp; exact ⟨fun h => hc h.symm, this⟩
        · exact ih l (by simp [h])

/-- A newline-free prefix followed by a newline is the first line. -/
theorem getlines_append_newline (l rest : List Char) (hl : '\n' ∉ l) :
    getlines (l ++ '\n' :: rest) = l :: getlines rest := by
  induction l with
  | nil => simp [getlines]
  | cons c cs ih =>
    have hc : c ≠ '\n' := fun h => hl (by simp [h])
    have hcs : '\n' ∉ cs := fun h => hl (by simp [h])
    simp [getlines, hc, ih hcs]

/-- Reading back the lines of `unlines ls` gives `ls`, when no line contains a
newline. -/
theorem getlines_unlines (ls : List (List Char)) (h : ∀ l ∈ ls, '\n' ∉ l) :
    getlines (unlines ls) = ls := by
  induction ls with
  | nil => simp [unlines, getlines]
  | cons l ls ih =>
    simp only [unlines]
    rw [getlines_append_newline l _ (h l (by simp)), ih (fun l hl => h l (by simp [hl]))]

/-! ### The skip test -/

/-- The search `s.find (pat) != std::string::npos` succeeds exactly when `pat`
is a contiguous part of `s`. -/
theorem found_iff_infix (pat s : List Char) : found pat s = true ↔ pat <:+: s := by
  induction s with
  | nil => simp [found, List.isEmpty_iff]
  | cons c cs ih =>
    rw [found, Bool.or_eq_true, ih, List.infix_cons_iff, List.isPrefixOf_iff_prefix]

/-- The test of line 200 holds exactly of the lines that are empty, begin with
`#` or contain "stat". -/
theorem skipLine_iff_SkippedLine (line : List Char) :
    skipLine line = true ↔ SkippedLine line := by
  unfold skipLine SkippedLine
  rw [Bool.or_eq_true, Bool.or_eq_true, found_iff_infix, List.isEmpty_iff]
  have : (line.head? == some '#') = true ↔ ['#'] <+: line := by
    cases line with
    | nil => simp
    | cons c cs =>
      simp only [List.cons_prefix_cons, List.nil_prefix, and_true, List.head?_cons, beq_iff_eq,
        Option.some.injEq]
      exact eq_comm
  rw [this, or_assoc]

/-- Removing the lines to be skipped is removing the lines that the test of
line 200 skips. -/
theorem withoutSkippedLines_eq (text : List Char) :
    withoutSkippedLines text = removeSkipped text := by
  unfold withoutSkippedLines removeSkipped
  congr 1
  apply List.filter_congr
  intro l _
  by_cases h : skipLine l = true
  · simp [h, (skipLine_iff_SkippedLine l).1 h]
  · have h2 : ¬ SkippedLine l := fun hs => h ((skipLine_iff_SkippedLine l).2 hs)
    simp only [Bool.not_eq_true] at h
    simp [h, h2]

/-! ### Lemmas on `emplaceBackAt` -/

/-- An index inside the vector can be appended to. -/
theorem emplaceBackAt_some (f : FlowInfo) (l : List (List FlowInfo)) (i : Nat)
    (h : i < l.length) : ∃ l', emplaceBackAt f l i = some l' := by
  induction l generalizing i with
  | nil => simp at h
  | cons p ps ih =>
    cases i with
    | zero => exact ⟨_, rfl⟩
    | succ i =>
      obtain ⟨l', hl'⟩ := ih i (by simpa using h)
      exact ⟨p :: l', by simp [emplaceBackAt, hl']⟩

/-- Effect of a successful `emplaceBackAt`: the index is in range, the number
of phases is unchanged, one descriptor is added in all, and only phase `i`
changes, by the new descriptor at its end. -/
theorem emplaceBackAt_spec (f : FlowInfo) (l l' : List (List FlowInfo)) (i : Nat)
    (h : emplaceBackAt f l i = some l') :
    i < l.length ∧ l'.length = l.length ∧
    (l'.map List.length).sum = (l.map List.length).sum + 1 ∧
    ∀ k, l'[k]? = if k = i then (l[i]?).map (fun p => p ++ [f]) else l[k]? := by
  induction l generalizing i l' with
  | nil => simp [emplaceBackAt] at h
  | cons p ps ih =>
    cases i with
    | zero =>
      simp [emplaceBackAt] at h
      subst h
      refine ⟨by simp, by simp, by simp; omega, ?_⟩
      intro k
      cases k <;> simp
    | succ i =>
      simp only [emplaceBackAt, Option.map_eq_some'] at h
      obtain ⟨ps', hps', rfl⟩ := h
      obtain ⟨h1, h2, h3, h4⟩ := ih ps' i hps'
      refine ⟨by simpa using h1, by simp [h2], by simp [h3]; omega, ?_⟩
      intro k
      cases k with
      | zero => simp
      | succ k => simpa using h4 k

/-! ### One iteration of the loop -/

section
variable {D : Type} (ops : DoubleOps D) (un : Uninit D)

/-- A skipped line leaves the state unchanged. -/
theorem parseLine_skip (st : ParseState D) (line : List Char) (h : skipLine line = true) :
    parseLine ops un st line = .ok st := by
  simp [parseLine, h]

/-- Effect of a phase-marker line while `batch` can be incremented. -/
theorem parseLine_phase (st : ParseState D) (line : List Char)
    (hs : skipLine line = false) (hp : phaseLine line = true) (hb : st.batch ≠ 2147483647) :
    parseLine ops un st line =
      .ok { flowInfos := st.flowInfos ++ [[]], batch := st.batch + 1,
            startTime := if st.batch < 0 then
                ops.add st.startTime (ops.div1e6 (readPhase ops un line))
              else st.startTime } := by
  simp [parseLine, hs, hp, hb]

/-- A phase-marker line that is read without undefined behaviour appends one
empty phase and increments `batch`. -/
theorem parseLine_phase_ok (st st' : ParseState D) (line : List Char)
    (hs : skipLine line = false) (hp : phaseLine line = true)
    (h : parseLine ops un st line = .ok st') :
    st'.flowInfos = st.flowInfos ++ [[]] ∧ st'.batch = st.batch + 1 := by
  by_cases hb : st.batch = 2147483647
  · simp [parseLine, hs, hp, hb] at h
  · rw [parseLine_phase ops un st line hs hp hb] at h
    cases h
    exact ⟨rfl, rfl⟩

/-- A flow-record line that is read without undefined behaviour appends, to
phase `batch`, the extracted descriptor with its destination port replaced. -/
theorem parseLine_flow_ok (st st' : ParseState D) (line : List Char)
    (hs : skipLine line = false) (hp : phaseLine line = false)
    (h : parseLine ops un st line = .ok st') :
    ∃ flow : FlowInfo,
      readFlow (un.flow st.batch.toNat ((st.flowInfos.getD st.batch.toNat []).length)) line =
        .ok flow ∧
      0 ≤ st.batch ∧
      emplaceBackAt { flow with dstPort := ((st.batch + 1) % 65536).toNat }
        st.flowInfos st.batch.toNat = some st'.flowInfos ∧
      st'.batch = st.batch ∧ st'.startTime = st.startTime := by
  simp only [parseLine, hs, hp, Bool.false_eq_true, if_false] at h
  split at h
  · simp at h
  · rename_i flow hflow
    split at h
    · simp at h
    · split at h
      · simp at h
      · rename_i hneg
        split at h
        · simp at h
        · rename_i fi hfi
          cases h
          exact ⟨flow, hflow, by omega, hfi, rfl, rfl⟩

end

/-! ### The whole loop -/

section
variable {D : Type} (ops : DoubleOps D) (un : Uninit D)

/-- The loop adds one phase per phase-marker line and one descriptor per flow-
record line. -/
theorem parseLoop_counts (ls : List (List Char)) (st st' : ParseState D)
    (h : parseLoop ops un st ls = .ok st') :
    st'.flowInfos.length = st.flowInfos.length + (ls.filter isMarker).length ∧
    (st'.flowInfos.map List.length).sum =
      (st.flowInfos.map List.length).sum + (ls.filter isRecord).length := by
  induction ls generalizing st with
  | nil =>
    simp only [parseLoop] at h
    cases h
    simp
  | cons line ls ih =>
    simp only [parseLoop] at h
    split at h
    · simp at h
    · rename_i st1 h1
      obtain ⟨ih1, ih2⟩ := ih st1 h
      by_cases hs : skipLine line = true
      · rw [parseLine_skip ops un st line hs] at h1
        cases h1
        simp [isMarker, isRecord, hs, ih1, ih2]
      · simp only [Bool.not_eq_true] at hs
        by_cases hp : phaseLine line = true
        · obtain ⟨e1, _⟩ := parseLine_phase_ok ops un st st1 line hs hp h1
          rw [e1] at ih1 ih2
          simp [isMarker, isRecord, hs, hp, ih1, ih2]
          omega
        · simp only [Bool.not_eq_true] at hp
          obtain ⟨flow, _, _, e1, _, _⟩ := parseLine_flow_ok ops un st st1 line hs hp h1
          obtain ⟨_, e2, e3, _⟩ := emplaceBackAt_spec _ _ _ _ e1
          rw [e2] at ih1
          rw [e3] at ih2
          simp [isMarker, isRecord, hs, hp, ih1, ih2]
          omega

/-- The loop gives the same outcome on the lines that are not skipped. -/
theorem parseLoop_filter_skipped (ls : List (List Char)) (st : ParseState D) :
    parseLoop ops un st (ls.filter (fun l => !skipLine l)) = parseLoop ops un st ls := by
  induction ls generalizing st with
  | nil => rfl
  | cons line ls ih =>
    by_cases hs : skipLine line = true
    · simp [List.filter, hs, parseLoop, parseLine_skip ops un st line hs, ih]
    · simp only [Bool.not_eq_true] at hs
      simp only [List.filter, hs, Bool.not_false, parseLoop]
      cases parseLine ops un st line with
      | error e => rfl
      | ok st1 => exact ih st1

/-- One iteration preserves `PortsFollowPhase`. -/
theorem parseLine_ports (st st' : ParseState D) (line : List Char)
    (h : parseLine ops un st line = .ok st') (inv : PortsFollowPhase st.flowInfos) :
    PortsFollowPhase st'.flowInfos := by
  by_cases hs : skipLine line = true
  · rw [parseLine_skip ops un st line hs] at h
    cases h
    exact inv
  · simp only [Bool.not_eq_true] at hs
    by_cases hp : phaseLine line = true
    · obtain ⟨e1, _⟩ := parseLine_phase_ok ops un st st' line hs hp h
      rw [e1]
      intro k p f hk hf
      rcases Nat.lt_or_ge k st.flowInfos.length with hlt | hge
      · rw [List.getElem?_append_left hlt] at hk
        exact inv k p f hk hf
      · rw [List.getElem?_append_right hge] at hk
        cases hkk : k - st.flowInfos.length with
        | zero => rw [hkk] at hk; simp at hk; subst hk; simp at hf
        | succ n => rw [hkk] at hk; simp at hk
    · simp only [Bool.not_eq_true] at hp
      obtain ⟨flow, _, hb, e1, _, _⟩ := parseLine_flow_ok ops un st st' line hs hp h
      obtain ⟨_, _, _, e4⟩ := emplaceBackAt_spec _ _ _ _ e1
      intro k p f hk hf
      rw [e4 k] at hk
      split at hk
      · rename_i hki
        simp only [Option.map_eq_some'] at hk
        obtain ⟨p0, hp0, rfl⟩ := hk
        rcases List.mem_append.1 hf with hf | hf
        · rw [← hki] at hp0
          exact inv k p0 f hp0 hf
        · simp at hf
          subst hf
          simp only
          subst hki
          omega
      · exact inv k p f hk hf

/-- The loop preserves `PortsFollowPhase`. -/
theorem parseLoop_ports (ls : List (List Char)) (st st' : ParseState D)
    (h : parseLoop ops un st ls = .ok st') (inv : PortsFollowPhase st.flowInfos) :
    PortsFollowPhase st'.flowInfos := by
  induction ls generalizing st with
  | nil =>
    simp only [parseLoop] at h
    cases h
    exact inv
  | cons line ls ih =>
    simp only [parseLoop] at h
    split at h
    · simp at h
    · rename_i st1 h1
      exact ih st1 h (parseLine_ports ops un st st1 line h1 inv)

end

/-! ### A run of many phase markers -/

section
variable {D : Type} (ops : DoubleOps D) (un : Uninit D)

/-- Reading `n` copies of a phase-marker line appends `n` empty phases and adds
`n` to `batch`. -/
theorem parseLoop_replicate_phase (m : List Char) (hs : skipLine m = false)
    (hp : phaseLine m = true) (n : Nat) (st : ParseState D) (ls : List (List Char))
    (hb : st.batch + n ≤ 2147483647) :
    ∃ t : D, parseLoop ops un st (List.replicate n m ++ ls) =
      parseLoop ops un
        { flowInfos := st.flowInfos ++ List.replicate n [], batch := st.batch + n,
          startTime := t } ls := by
  induction n generalizing st with
  | zero => exact ⟨st.startTime, by simp⟩
  | succ n ih =>
    have hne : st.batch ≠ 2147483647 := by omega
    obtain ⟨t, ht⟩ := ih
      { flowInfos := st.flowInfos ++ [[]], batch := st.batch + 1,
        startTime := if st.batch < 0 then
            ops.add st.startTime (ops.div1e6 (readPhase ops un m))
          else st.startTime }
      (by simp only; omega)
    refine ⟨t, ?_⟩
    rw [List.replicate_succ, List.cons_append, parseLoop,
      parseLine_phase ops un st _ hs hp hne]
    simp only
    rw [ht]
    congr 2
    · simp [List.replicate_succ]
    · push_cast; omega

end

section
variable {D : Type} (ops : DoubleOps D) (un : Uninit D)

/-- A flow-record line read with `batch` inside the vector is stored. -/
theorem parseLine_record (st : ParseState D) (line : List Char) (flow : FlowInfo)
    (fi : List (List FlowInfo))
    (hs : skipLine line = false) (hp : phaseLine line = false)
    (hread : readFlow (un.flow st.batch.toNat ((st.flowInfos.getD st.batch.toNat []).length))
      line = .ok flow)
    (hb0 : 0 ≤ st.batch) (hb1 : st.batch ≠ 2147483647)
    (hfi : emplaceBackAt { flow with dstPort := ((st.batch + 1) % 65536).toNat }
      st.flowInfos st.batch.toNat = some fi) :
    parseLine ops un st line = .ok { st with flowInfos := fi } := by
  unfold parseLine
  simp only [hs, hp, Bool.false_eq_true, if_false, hread, if_neg hb1, if_neg (not_lt.2 hb0), hfi]

end

/-- The run on `n + 1` lines `phase 0` followed by `recordLine`: the record is
stored in phase `n` with destination port `(n + 1) mod 2^16`. -/
theorem run_phases_then_record (n : Nat) (hn : n + 1 < 2147483647) :
    ∃ st, workLoadParse symbolicOps garbage
        (unlines (List.replicate (n + 1) "phase 0".toList ++ [recordLine])) = .ok st ∧
      ∃ f, f ∈ st.flowInfos.getD n [] ∧ f.dstPort = (n + 1) % 65536 := by
  have hlines : getlines (unlines (List.replicate (n + 1) "phase 0".toList ++ [recordLine])) =
      List.replicate (n + 1) "phase 0".toList ++ [recordLine] := by
    apply getlines_unlines
    intro l hl
    rcases List.mem_append.1 hl with h | h
    · rw [List.eq_of_mem_replicate h]; decide
    · rw [List.mem_singleton] at h; subst h; decide
  obtain ⟨t, ht⟩ := parseLoop_replicate_phase symbolicOps garbage "phase 0".toList
    (by decide) (by decide) (n + 1) (initial symbolicOps) [recordLine]
    (by simp only [initial]; omega)
  have hbatch : (initial symbolicOps).batch + ((n + 1 : Nat) : Int) = (n : Int) := by
    simp only [initial]; push_cast; omega
  rw [hbatch] at ht
  have hlen : n < (([] : List (List FlowInfo)) ++ List.replicate (n + 1) []).length := by
    rw [List.length_append, List.length_replicate]; simp
  have hport : (((n : Int) + 1) % 65536).toNat = (n + 1) % 65536 := by omega
  obtain ⟨fi, hfi⟩ := emplaceBackAt_some
    { type := ['x'], srcNodeId := 1, srcPort := 2, dstNodeId := 3,
      dstPort := (n + 1) % 65536, priority := 51, msgLen := 1448 }
    (([] : List (List FlowInfo)) ++ List.replicate (n + 1) []) n hlen
  have hs : skipLine recordLine = false := by decide
  have hp : phaseLine recordLine = false := by decide
  refine ⟨{ flowInfos := fi, batch := n, startTime := t }, ?_, ?_⟩
  · unfold workLoadParse
    rw [hlines, ht]
    simp only [parseLoop]
    rw [parseLine_record symbolicOps garbage _ recordLine
      { type := ['x'], srcNodeId := 1, srcPort := 2, dstNodeId := 3, dstPort := 4,
        priority := 51, msgLen := 1448 } fi hs hp rfl (by simp only; omega)
      (by simp only; omega)
      (by simp only [initial, Int.toNat_ofNat, hport]; exact hfi)]
  · obtain ⟨_, _, _, h4⟩ := emplaceBackAt_spec _ _ _ _ hfi
    have := h4 n
    rw [if_pos rfl, List.getElem?_eq_getElem hlen] at this
    refine ⟨{ type := ['x'], srcNodeId := 1, srcPort := 2, dstNodeId := 3,
              dstPort := (n + 1) % 65536, priority := 51, msgLen := 1448 }, ?_, rfl⟩
    rw [List.getD_eq_getElem?_getD, this]
    simp

/-! ### Records between markers -/

/-- Effect on `afterMarker` of one more line at the end of the input. -/
theorem afterMarker_snoc (ls : List (List Char)) (l : List Char) (i : Nat) :
    (i < (ls.filter isMarker).length →
      afterMarker i (ls ++ [l]) = afterMarker i ls ++ [l] ∧
      ((afterMarker i ls).filter isMarker).length = (ls.filter isMarker).length - (i + 1)) ∧
    ((ls.filter isMarker).length ≤ i →
      afterMarker i ls = [] ∧ afterMarker i (ls ++ [l]) = []) := by
  induction ls generalizing i with
  | nil =>
    refine ⟨by simp, fun _ => ⟨by cases i <;> rfl, ?_⟩⟩
    cases i <;> by_cases hm : isMarker l = true <;> simp [afterMarker, hm]
  | cons a ls ih =>
    by_cases ha : isMarker a = true
    · cases i with
      | zero => simp [afterMarker, ha, List.filter]
      | succ j =>
        obtain ⟨ih1, ih2⟩ := ih j
        simp only [List.cons_append, afterMarker, ha, if_true, List.filter, List.length_cons]
        exact ⟨fun h => by
          obtain ⟨e1, e2⟩ := ih1 (by omega)
          exact ⟨e1, by omega⟩, fun h => ih2 (by omega)⟩
    · simp only [Bool.not_eq_true] at ha
      obtain ⟨ih1, ih2⟩ := ih i
      cases i with
      | zero =>
        simpa only [List.cons_append, afterMarker, ha, Bool.false_eq_true, if_false,
          List.filter] using And.intro ih1 ih2
      | succ j =>
        simpa only [List.cons_append, afterMarker, ha, Bool.false_eq_true, if_false,
          List.filter] using And.intro ih1 ih2

/-- Effect of one more line on the lines up to the next marker. -/
theorem takeWhile_not_marker_snoc (xs : List (List Char)) (l : List Char) :
    ((xs.filter isMarker).length = 0 →
      xs.takeWhile (fun l => !isMarker l) = xs ∧
      (xs ++ [l]).takeWhile (fun l => !isMarker l) = xs ++ (if isMarker l then [] else [l])) ∧
    (0 < (xs.filter isMarker).length →
      (xs ++ [l]).takeWhile (fun l => !isMarker l) = xs.takeWhile (fun l => !isMarker l)) := by
  induction xs with
  | nil => by_cases hm : isMarker l = true <;> simp [List.takeWhile, hm]
  | cons a xs ih =>
    by_cases ha : isMarker a = true
    · simp [List.takeWhile, List.filter, ha]
    · simp only [Bool.not_eq_true] at ha
      simpa [List.takeWhile, List.filter, ha] using ih

/-- One more line at the end of the input adds a record to the last phase when
it is a flow record, and changes no other phase. -/
theorem recordsOfPhase_snoc (ls : List (List Char)) (l : List Char) (i : Nat) :
    recordsOfPhase i (ls ++ [l]) =
      if i + 1 = (ls.filter isMarker).length ∧ isRecord l = true
      then recordsOfPhase i ls ++ [l] else recordsOfPhase i ls := by
  obtain ⟨h1, h2⟩ := afterMarker_snoc ls l i
  have hrm : isRecord l = true → isMarker l = false := by
    simp only [isRecord, isMarker, Bool.and_eq_true, Bool.not_eq_true', Bool.and_eq_false_imp]
    intro h _; exact h.2
  rcases Nat.lt_or_ge i (ls.filter isMarker).length with hlt | hge
  · obtain ⟨e1, e2⟩ := h1 hlt
    obtain ⟨t1, t2⟩ := takeWhile_not_marker_snoc (afterMarker i ls) l
    unfold recordsOfPhase
    rw [e1]
    by_cases hlast : i + 1 = (ls.filter isMarker).length
    · obtain ⟨t1a, t1b⟩ := t1 (by omega)
      rw [t1b, t1a]
      by_cases hr : isRecord l = true
      · simp [hlast, hr, hrm hr, List.filter_append]
      · simp only [Bool.not_eq_true] at hr
        by_cases hm : isMarker l = true
        · simp [hlast, hr, hm]
        · simp [hlast, hr, hm, List.filter_append]
    · rw [t2 (by omega)]
      simp [hlast]
  · obtain ⟨e1, e2⟩ := h2 hge
    unfold recordsOfPhase
    rw [e1, e2]
    have : ¬ (i + 1 = (ls.filter isMarker).length) := by omega
    simp [this]

section
variable {D : Type} (ops : DoubleOps D) (un : Uninit D)

/-- The loop on one more line is the loop followed by one iteration. -/
theorem parseLoop_snoc (ls : List (List Char)) (l : List Char) (st : ParseState D) :
    parseLoop ops un st (ls ++ [l]) =
      match parseLoop ops un st ls with
      | .error e => .error e
      | .ok st1 => parseLine ops un st1 l := by
  induction ls generalizing st with
  | nil =>
    simp only [List.nil_append, parseLoop]
    cases parseLine ops un st l <;> rfl
  | cons a ls ih =>
    simp only [List.cons_append, parseLoop]
    cases parseLine ops un st a with
    | error e => rfl
    | ok st1 => exact ih st1

/-- The loop establishes `ReadSoFar`. -/
theorem parseLoop_readSoFar (ls : List (List Char)) (st : ParseState D)
    (h : parseLoop ops un (initial ops) ls = .ok st) : ReadSoFar st ls := by
  induction ls using List.reverseRecOn generalizing st with
  | nil =>
    simp only [parseLoop] at h
    cases h
    exact ⟨by simp [initial], by simp [initial], by intro i p hp; simp [initial] at hp⟩
  | append_singleton ls l ih =>
    rw [parseLoop_snoc] at h
    split at h
    · simp at h
    · rename_i st1 h1
      obtain ⟨ib, ilen, irec⟩ := ih st1 h1
      by_cases hs : skipLine l = true
      · rw [parseLine_skip ops un st1 l hs] at h
        cases h
        have hm : isMarker l = false := by simp [isMarker, hs]
        have hr : isRecord l = false := by simp [isRecord, hs]
        refine ⟨ib, by simp [List.filter_append, hm, ilen], ?_⟩
        intro i p hp
        rw [recordsOfPhase_snoc]
        simpa [hr] using irec i p hp
      · simp only [Bool.not_eq_true] at hs
        by_cases hp : phaseLine l = true
        · obtain ⟨e1, e2⟩ := parseLine_phase_ok ops un st1 st l hs hp h
          have hm : isMarker l = true := by simp [isMarker, hs, hp]
          have hr : isRecord l = false := by simp [isRecord, hs, hp]
          refine ⟨by rw [e1, e2]; simp; omega,
            by rw [e1]; simp [List.filter_append, hm, ilen], ?_⟩
          intro i p hip
          rw [recordsOfPhase_snoc]
          simp only [hr, Bool.false_eq_true, and_false, if_false]
          rw [e1] at hip
          rcases Nat.lt_or_ge i st1.flowInfos.length with hlt | hge
          · rw [List.getElem?_append_left hlt] at hip
            exact irec i p hip
          · rw [List.getElem?_append_right hge] at hip
            cases hkk : i - st1.flowInfos.length with
            | zero =>
              rw [hkk] at hip
              simp at hip
              subst hip
              have hnil : recordsOfPhase i ls = [] := by
                unfold recordsOfPhase
                rw [((afterMarker_snoc ls l i).2 (by omega)).1]
                rfl
              rw [hnil]
              exact List.Forall₂.nil
            | succ n => rw [hkk] at hip; simp at hip
        · simp only [Bool.not_eq_true] at hp
          obtain ⟨flow, hread, hb, e1, e2, _⟩ := parseLine_flow_ok ops un st1 st l hs hp h
          obtain ⟨_, e3, _, e4⟩ := emplaceBackAt_spec _ _ _ _ e1
          have hm : isMarker l = false := by simp [isMarker, hp]
          have hr : isRecord l = true := by simp [isRecord, hs, hp]
          refine ⟨by rw [e2, e3]; exact ib, by rw [e3]; simp [List.filter_append, hm, ilen], ?_⟩
          intro i p hip
          rw [recordsOfPhase_snoc]
          rw [e4 i] at hip
          by_cases hi : i = st1.batch.toNat
          · rw [if_pos hi] at hip
            simp only [Option.map_eq_some'] at hip
            obtain ⟨p0, hp0, rfl⟩ := hip
            have hlast : i + 1 = (ls.filter isMarker).length := by omega
            rw [if_pos ⟨hlast, hr⟩]
            rw [← hi] at hp0
            refine List.rel_append (irec i p0 hp0) ?_
            refine List.Forall₂.cons ?_ List.Forall₂.nil
            have hport : ((st1.batch + 1) % 65536).toNat = (i + 1) % 65536 := by omega
            rw [hport]
            exact ⟨_, flow, hread, rfl⟩
          · rw [if_neg hi] at hip
            have hlast : ¬ (i + 1 = (ls.filter isMarker).length) := by omega
            simp only [hlast, false_and, if_false]
            exact irec i p hip

end

/-! ### Runs without undefined behaviour -/

/-- The extractions succeed when the type token fits the array. -/
theorem readFlow_ok (flow : FlowInfo) (line : List Char) (h : (typeToken line).length < 32) :
    ∃ f, readFlow flow line = .ok f := by
  unfold typeToken at h
  unfold readFlow
  show ∃ f, (if ((StringStream.ofLine line).extractString.2.extractString.1.getD []).length ≥ 32
    then _ else _) = Except.ok f
  rw [if_neg (by omega)]
  exact ⟨_, rfl⟩

section
variable {D : Type} (ops : DoubleOps D) (un : Uninit D)

/-- From a state in which `batch` is the index of the last phase, the loop
runs to its end on lines that satisfy the three conditions of `Defined`. -/
theorem parseLoop_ok (ls : List (List Char)) (st : ParseState D)
    (hlen : st.batch + 1 = st.flowInfos.length)
    (hmark : st.batch + (ls.filter isMarker).length < 2147483646)
    (htok : ∀ l ∈ ls, isRecord l = true → (typeToken l).length < 32)
    (hfirst : st.batch < 0 → (ls.takeWhile (fun l => !isMarker l)).filter isRecord = []) :
    ∃ st', parseLoop ops un st ls = .ok st' := by
  induction ls generalizing st with
  | nil => exact ⟨st, rfl⟩
  | cons l ls ih =>
    have htok' : ∀ l ∈ ls, isRecord l = true → (typeToken l).length < 32 :=
      fun x hx => htok x (List.mem_cons_of_mem _ hx)
    by_cases hs : skipLine l = true
    · have hm : isMarker l = false := by simp [isMarker, hs]
      have hr : isRecord l = false := by simp [isRecord, hs]
      simp only [parseLoop, parseLine_skip ops un st l hs]
      refine ih st hlen ?_ htok' ?_
      · simpa [List.filter, hm] using hmark
      · intro hb
        simpa [List.takeWhile, List.filter, hm, hr] using hfirst hb
    · simp only [Bool.not_eq_true] at hs
      by_cases hp : phaseLine l = true
      · have hm : isMarker l = true := by simp [isMarker, hs, hp]
        have hmark' : st.batch + ((ls.filter isMarker).length + 1 : Nat) < 2147483646 := by
          simpa [List.filter, hm] using hmark
        simp only [parseLoop, parseLine_phase ops un st l hs hp (by omega)]
        refine ih _ ?_ ?_ htok' ?_
        · simp only [List.length_append, List.length_singleton]; push_cast; omega
        · simp only; push_cast at hmark'; omega
        · intro hb; simp only at hb; omega
      · simp only [Bool.not_eq_true] at hp
        have hm : isMarker l = false := by simp [isMarker, hp]
        have hr : isRecord l = true := by simp [isRecord, hs, hp]
        have hb0 : 0 ≤ st.batch := by
          by_contra hneg
          have := hfirst (by omega)
          simp [List.takeWhile, List.filter, hm, hr] at this
        obtain ⟨f, hf⟩ := readFlow_ok
          (un.flow st.batch.toNat ((st.flowInfos.getD st.batch.toNat []).length)) l
          (htok l (List.mem_cons_self _ _) hr)
        obtain ⟨fi, hfi⟩ := emplaceBackAt_some
          { f with dstPort := ((st.batch + 1) % 65536).toNat } st.flowInfos st.batch.toNat
          (by omega)
        have hmark' : st.batch + ((ls.filter isMarker).length : Nat) < 2147483646 := by
          simpa [List.filter, hm] using hmark
        simp only [parseLoop,
          parseLine_record ops un st l f fi hs hp hf hb0 (by omega) hfi]
        obtain ⟨_, e2, _, _⟩ := emplaceBackAt_spec _ _ _ _ hfi
        refine ih _ ?_ hmark' htok' ?_
        · simp only [e2]; exact hlen
        · intro hb; simp only at hb; omega

/-- The loop of `workLoad` runs to its end on every text whose lines satisfy
`Defined`. -/
theorem workLoadParse_ok (text : List Char) (h : Defined (getlines text)) :
    ∃ st, workLoadParse ops un text = .ok st := by
  obtain ⟨h1, h2, h3⟩ := h
  exact parseLoop_ok ops un (getlines text) (initial ops) (by simp [initial])
    (by simp only [initial]; omega) h3 (fun _ => h1)

end

/-! ### The properties -/

/-- C5: when the loop of `workLoad` runs to its end, the number of phases in
`flowInfos` equals the number of phase-marker lines of the text (lines that
are not skipped and contain "phase"); and a phase-marker line, read in any
state in which `batch` can still be incremented, appends exactly one empty
phase and advances `batch` by one. -/
theorem phase_count_eq_marker_count {D : Type} (ops : DoubleOps D) (un : Uninit D)
    (text : List Char) (st s : ParseState D) (line : List Char)
    (hrun : workLoadParse ops un text = .ok st)
    (hline : isMarker line = true) (hb : s.batch ≠ 2147483647) :
    st.flowInfos.length = ((getlines text).filter isMarker).length ∧
    ∃ s', parseLine ops un s line = .ok s' ∧
      s'.flowInfos = s.flowInfos ++ [[]] ∧ s'.batch = s.batch + 1 := by
  constructor
  · have := (parseLoop_counts ops un (getlines text) (initial ops) st hrun).1
    simpa [initial] using this
  · simp only [isMarker, Bool.and_eq_true, Bool.not_eq_true'] at hline
    exact ⟨_, parseLine_phase ops un s line hline.1 hline.2 hb, rfl, rfl⟩

/-- Witness for C5 on `sampleWorkload`, which has two phase markers (and a
skipped line containing "phase"). -/
theorem phase_count_eq_marker_count_witness :
    (workLoadParse symbolicOps garbage sampleWorkload = .ok sampleState ∧
      isMarker "phase 0".toList = true ∧ (initial symbolicOps).batch ≠ 2147483647) ∧
    sampleState.flowInfos.length = 2 ∧
    sampleState.flowInfos.length = ((getlines sampleWorkload).filter isMarker).length :=
  ⟨⟨rfl, by decide, by decide⟩, rfl,
    (phase_count_eq_marker_count symbolicOps garbage sampleWorkload sampleState
      (initial symbolicOps) "phase 0".toList rfl (by decide) (by decide)).1⟩

/-- C6 (evaluation at the failing input): on a workload whose first
non-skipped line is a flow record, `workLoad` executes `flowInfos[batch]`
with `batch = -1` on the empty vector, whatever the uninitialised locals hold;
no plan results. -/
theorem record_before_first_phase_is_undefined {D : Type} (ops : DoubleOps D)
    (un : Uninit D) :
    workLoadParse ops un recordBeforePhase = .error .vectorIndex := by
  rfl

/-- When the loop of `workLoad` runs to its end, the descriptors of phase `i`
are, in order, those of the flow-record lines textually between phase marker
`i` and the next phase marker (or the end of the input). -/
theorem phases_hold_records_between_markers {D : Type} (ops : DoubleOps D) (un : Uninit D)
    (text : List Char) (st : ParseState D) (i : Nat) (p : List FlowInfo)
    (hrun : workLoadParse ops un text = .ok st) (hp : st.flowInfos[i]? = some p) :
    List.Forall₂ (StoredFrom i) p (recordsOfPhase i (getlines text)) :=
  (parseLoop_readSoFar ops un (getlines text) st hrun).2.2 i p hp

/-- C7 (counterexample): in the workload `manyPhases` the record that follows
the 65536th phase marker is stored in phase 65535 with destination port 0,
not 65536. -/
theorem dstPort_wraps_at_65536_phases :
    ∃ st, workLoadParse symbolicOps garbage manyPhases = .ok st ∧
      ∃ f, f ∈ st.flowInfos.getD 65535 [] ∧ f.dstPort ≠ 65535 + 1 := by
  obtain ⟨st, h1, f, h2, h3⟩ := run_phases_then_record 65535 (by norm_num)
  exact ⟨st, h1, f, h2, by rw [h3]; norm_num⟩

/-- C7 (amended): when the loop of `workLoad` runs to its end, every
descriptor stored in phase `k` has destination port `(k + 1) mod 2^16`,
whatever followed the `dport` label; this is `k + 1` for `k < 65535`. -/
theorem dstPort_eq_phase_index_succ_mod {D : Type} (ops : DoubleOps D) (un : Uninit D)
    (text : List Char) (st : ParseState D) (k : Nat) (p : List FlowInfo) (f : FlowInfo)
    (hrun : workLoadParse ops un text = .ok st)
    (hk : st.flowInfos[k]? = some p) (hf : f ∈ p) :
    f.dstPort = (k + 1) % 65536 ∧ (k < 65535 → f.dstPort = k + 1) := by
  have inv : PortsFollowPhase st.flowInfos :=
    parseLoop_ports ops un (getlines text) (initial ops) st hrun
      (by intro k p f hk; simp [initial] at hk)
  have h := inv k p f hk hf
  exact ⟨h, fun hlt => by rw [h]; omega⟩

/-- Witness for C7 (amended) on `sampleWorkload`: the record of phase 1 was
written with `dport 7` and is stored with destination port 2. -/
theorem dstPort_eq_phase_index_succ_mod_witness :
    (workLoadParse symbolicOps garbage sampleWorkload = .ok sampleState ∧
      sampleState.flowInfos[1]? =
        some [{ type := ['b'], srcNodeId := 8, srcPort := 5, dstNodeId := 1, dstPort := 2,
                priority := 50, msgLen := 1448 }]) ∧
    (2 : Nat) = (1 + 1) % 65536 :=
  ⟨⟨rfl, rfl⟩,
    (dstPort_eq_phase_index_succ_mod symbolicOps garbage sampleWorkload sampleState 1
      [{ type := ['b'], srcNodeId := 8, srcPort := 5, dstNodeId := 1, dstPort := 2,
         priority := 50, msgLen := 1448 }]
      { type := ['b'], srcNodeId := 8, srcPort := 5, dstNodeId := 1, dstPort := 2,
        priority := 50, msgLen := 1448 }
      rfl rfl (List.mem_singleton.2 rfl)).1⟩

/-- C8 (evaluation at the failing input): the record
`type x src 1 sport 2 dst 3 dport 4 prio 3 size 1448` is stored with priority
51, the code of the character `3`; with `prio 10` the priority is 49, the code
of `1`, and the payload length is 0 instead of 1448. -/
theorem priority_is_read_as_character {D : Type} (ops : DoubleOps D) (un : Uninit D) :
    (∃ st, workLoadParse ops un onePhaseOneRecord = .ok st ∧
      st.flowInfos = [[{ type := ['x'], srcNodeId := 1, srcPort := 2, dstNodeId := 3,
                         dstPort := 1, priority := 51, msgLen := 1448 }]]) ∧
    (∃ st, workLoadParse ops un onePhasePrio10 = .ok st ∧
      st.flowInfos = [[{ type := ['x'], srcNodeId := 1, srcPort := 2, dstNodeId := 3,
                         dstPort := 1, priority := 49, msgLen := 0 }]]) :=
  ⟨⟨_, rfl, rfl⟩, ⟨_, rfl, rfl⟩⟩

/-- C9: the lines that the loop of `workLoad` skips are exactly the lines that
are empty, begin with `#` or contain "stat"; such a line leaves the state of
the loop unchanged, also when it contains "phase"; and removing all such
lines from the text changes nothing in the outcome of the loop of `workLoad`:
same phases, same flows, same `batch`, same start-time offset. -/
theorem skipped_lines_do_not_matter {D : Type} (ops : DoubleOps D) (un : Uninit D)
    (text : List Char) :
    (∀ line, skipLine line = true ↔ SkippedLine line) ∧
    (∀ (st : ParseState D) (line : List Char), SkippedLine line →
      parseLine ops un st line = .ok st) ∧
    workLoadParse ops un (withoutSkippedLines text) = workLoadParse ops un text := by
  refine ⟨skipLine_iff_SkippedLine, fun st line h =>
    parseLine_skip ops un st line ((skipLine_iff_SkippedLine line).2 h), ?_⟩
  rw [withoutSkippedLines_eq]
  unfold workLoadParse removeSkipped
  rw [getlines_unlines _ (fun l hl => getlines_no_newline text l (List.mem_filter.1 hl).1)]
  exact parseLoop_filter_skipped ops un (getlines text) (initial ops)

/-- Witness for C9 on `sampleWorkload`: the comment, the empty line and the
line "stat phase 9", which contains "phase", are the lines removed; the two
phases and their flows are those of the four remaining lines. -/
theorem skipped_lines_do_not_matter_witness :
    (SkippedLine [] ∧ SkippedLine "# demo".toList ∧ SkippedLine "stat phase 9".toList ∧
      phaseLine "stat phase 9".toList = true ∧ ¬ SkippedLine "phase 100".toList ∧
      ¬ SkippedLine "type a src 0 sport 5 dst 9 dport 7 prio 1 size 3000".toList) ∧
    withoutSkippedLines sampleWorkload =
      unlines ["phase 100".toList,
        "type a src 0 sport 5 dst 9 dport 7 prio 1 size 3000".toList, "phase 0".toList,
        "type b src 8 sport 5 dst 1 dport 7 prio 2 size 1448".toList] ∧
    workLoadParse symbolicOps garbage (withoutSkippedLines sampleWorkload) =
      workLoadParse symbolicOps garbage sampleWorkload ∧
    workLoadParse symbolicOps garbage sampleWorkload = .ok sampleState :=
  ⟨by decide, rfl, (skipped_lines_do_not_matter symbolicOps garbage sampleWorkload).2.2, rfl⟩

/-- C10 (counterexample): a line with a single token and a record with a
non-numeric source node are both stored as descriptors, holding the contents
of the uninitialised local (and 0 where a number failed to parse); `workLoad`
completes without reporting anything. -/
theorem malformed_lines_are_stored :
    (isRecord "foo".toList = true ∧
      ∃ st, workLoadParse symbolicOps garbage tooFewTokens = .ok st ∧
        st.flowInfos = [[{ type := ['?'], srcNodeId := 57005, srcPort := 57005,
                           dstNodeId := 57005, dstPort := 1, priority := 173,
                           msgLen := 57005 }]]) ∧
    (∃ st, workLoadParse symbolicOps garbage nonNumericToken = .ok st ∧
      st.flowInfos = [[{ type := ['x'], srcNodeId := 0, srcPort := 57005,
                         dstNodeId := 57005, dstPort := 1, priority := 173,
                         msgLen := 57005 }]]) :=
  ⟨⟨by decide, _, rfl, rfl⟩, ⟨_, rfl, rfl⟩⟩

/-- C10 (amended): `workLoad` does not validate its input.  When its loop
runs to its end, the plan holds exactly one descriptor for every line that is
neither skipped nor a phase marker, well-formed or not. -/
theorem every_record_line_is_stored {D : Type} (ops : DoubleOps D) (un : Uninit D)
    (text : List Char) (st : ParseState D)
    (hrun : workLoadParse ops un text = .ok st) :
    (st.flowInfos.map List.length).sum = ((getlines text).filter isRecord).length := by
  have := (parseLoop_counts ops un (getlines text) (initial ops) st hrun).2
  simpa [initial] using this

/-- Witness for C10 (amended) on `tooFewTokens`: one malformed line, one
descriptor. -/
theorem every_record_line_is_stored_witness :
    workLoadParse symbolicOps garbage tooFewTokens =
      .ok { flowInfos := [[{ type := ['?'], srcNodeId := 57005, srcPort := 57005,
                             dstNodeId := 57005, dstPort := 1, priority := 173,
                             msgLen := 57005 }]],
            batch := 0,
            startTime := .add .zero (.div1e6 (.numGet ['0'])) } ∧
    (1 : Nat) = ((getlines tooFewTokens).filter isRecord).length :=
  ⟨rfl, every_record_line_is_stored symbolicOps garbage tooFewTokens _ rfl⟩

end WorkloadModel

/-! # Properties of the flow installer and the phase scheduler -/

namespace SchedulerModel
open WorkloadModel (FlowInfo)

/-! ### The owner of a node -/

/-- When the product fits `int` and the shard size is not zero, the owner
expression evaluates to the truncated quotient. -/
theorem ownerExpr_ok (cfg : Config) (nodeId : Nat)
    (hprod : cfg.SERVER * cfg.LEAF ≤ 2147483647) (hnz : cfg.shard ≠ 0) :
    ownerExpr cfg nodeId = .ok (nodeId / cfg.shard) := by
  have hd : cfg.DST ≠ 0 := by
    intro h; apply hnz; simp [Config.shard, h]
  unfold Config.shard at hnz
  simp [ownerExpr, shardExpr, Config.shard, Nat.not_lt.2 hprod, hd, hnz]

/-- When the owner expression evaluates at all, its value is the truncated
quotient, the product fits `int` and the shard size is not zero. -/
theorem ownerExpr_eq_ok (cfg : Config) (nodeId o : Nat) (h : ownerExpr cfg nodeId = .ok o) :
    cfg.SERVER * cfg.LEAF ≤ 2147483647 ∧ cfg.shard ≠ 0 ∧ o = nodeId / cfg.shard := by
  unfold ownerExpr shardExpr at h
  by_cases hprod : 2147483647 < cfg.SERVER * cfg.LEAF
  · simp [hprod] at h
  · by_cases hd : cfg.DST = 0
    · simp [hprod, hd] at h
    · by_cases hs : cfg.SERVER * cfg.LEAF / cfg.DST = 0
      · simp [hprod, hd, hs] at h
      · simp [hprod, hd, hs] at h
        exact ⟨by omega, hs, h.symm⟩

/-! ### `CreateFlow` -/

/-- When `CreateFlow` completes, it has installed the sender exactly when
this process owns the source node, then the sink exactly when it owns the
destination node, and nothing else. -/
theorem CreateFlow_ok (env : Env) (flow : FlowInfo) (apps : List App)
    (h : CreateFlow env flow = .ok apps) :
    env.cfg.SERVER * env.cfg.LEAF ≤ 2147483647 ∧ env.cfg.shard ≠ 0 ∧
    apps =
      (if env.systemId = flow.srcNodeId / env.cfg.shard then
        [App.onOff (flow.srcNodeId / env.cfg.SERVER % 65536)
          (flow.srcNodeId % env.cfg.SERVER % 65536)
          (flow.dstNodeId / env.cfg.SERVER % 65536)
          (flow.dstNodeId % env.cfg.SERVER % 65536) flow.dstPort flow.msgLen]
       else []) ++
      (if env.systemId = flow.dstNodeId / env.cfg.shard then
        [App.packetSink (flow.dstNodeId / env.cfg.SERVER % 65536)
          (flow.dstNodeId % env.cfg.SERVER % 65536) flow.dstPort
          [Callback.SinkTrace, Callback.flowRx_cb]]
       else []) := by
  unfold CreateFlow at h
  cases hs : ownerExpr env.cfg flow.srcNodeId with
  | error e => simp [hs] at h
  | ok so =>
    cases hd : ownerExpr env.cfg flow.dstNodeId with
    | error e => simp [hs, hd] at h
    | ok d =>
      obtain ⟨hp, hnz, rfl⟩ := ownerExpr_eq_ok _ _ _ hs
      obtain ⟨_, _, rfl⟩ := ownerExpr_eq_ok _ _ _ hd
      simp only [hs, hd] at h
      refine ⟨hp, hnz, ?_⟩
      split at h
      · simp at h
      · split at h
        · simp at h
        · split at h
          · simp at h
          · simp only [Except.ok.injEq] at h
            exact h.symm

/-! ### The loop of `LoadFlow` -/

/-- The count of line 135 is the ceiling of `msgLen / 1448`. -/
theorem segments_eq_ceil (msgLen : Nat) : segments msgLen = (msgLen + 1447) / 1448 := by
  unfold segments
  split <;> omega

/-- Frame of the loop of `LoadFlow`: the trace grows by installations only,
and `flowInfos`, `BatchCur`, `flowCom` do not change. -/
theorem installFlows_frame (env : Env) (phase : List FlowInfo) (st st' : Sched)
    (h : installFlows env phase st = .ok st') :
    st'.flowInfos = st.flowInfos ∧ st'.BatchCur = st.BatchCur ∧ st'.flowCom = st.flowCom ∧
    ∃ apps : List App, st'.trace = st.trace ++ apps.map Action.install := by
  induction phase generalizing st with
  | nil =>
    simp only [installFlows, Except.ok.injEq] at h
    subst h
    exact ⟨rfl, rfl, rfl, [], by simp⟩
  | cons flow flows ih =>
    unfold installFlows at h
    cases hc : CreateFlow env flow with
    | error e => simp [hc] at h
    | ok apps =>
      cases ho : ownerExpr env.cfg flow.dstNodeId with
      | error e => simp [hc, ho] at h
      | ok o =>
        simp only [hc, ho] at h
        obtain ⟨e2, e3, e4, apps', e5⟩ := ih _ h
        refine ⟨?_, ?_, ?_, apps ++ apps', ?_⟩
        · rw [e2]; split <;> rfl
        · rw [e3]; split <;> rfl
        · rw [e4]; split <;> rfl
        · rw [e5]; split <;> simp

/-- Effect of the loop of `LoadFlow` on `packets`: it grows, modulo `2 ^ 32`,
by the segments of the owned receive-side flows. -/
theorem installFlows_packets (env : Env) (phase : List FlowInfo) (st st' : Sched)
    (h : installFlows env phase st = .ok st') (hp : st.packets < 4294967296) :
    st'.packets = (st.packets + expectedArrivals env phase) % 4294967296 := by
  induction phase generalizing st with
  | nil =>
    simp only [installFlows, Except.ok.injEq] at h
    subst h
    simp [expectedArrivals, ownedReceivers, Nat.mod_eq_of_lt hp]
  | cons flow flows ih =>
    unfold installFlows at h
    cases hc : CreateFlow env flow with
    | error e => simp [hc] at h
    | ok apps =>
      cases ho : ownerExpr env.cfg flow.dstNodeId with
      | error e => simp [hc, ho] at h
      | ok o =>
        obtain ⟨_, _, rfl⟩ := ownerExpr_eq_ok _ _ _ ho
        simp only [hc, ho] at h
        by_cases hown : env.systemId = flow.dstNodeId / env.cfg.shard
        · simp only [hown, if_true] at h
          rw [ih _ h (Nat.mod_lt _ (by norm_num))]
          have : expectedArrivals env (flow :: flows) =
              (flow.msgLen + 1447) / 1448 + expectedArrivals env flows := by
            simp [expectedArrivals, ownedReceivers, List.filter, hown.symm]
          rw [this, segments_eq_ceil]
          simp only [Nat.mod_add_mod, Nat.add_assoc]
        · simp only [hown, if_false] at h
          rw [ih _ h hp]
          have : expectedArrivals env (flow :: flows) = expectedArrivals env flows := by
            have hne : ¬ (flow.dstNodeId / env.cfg.shard = env.systemId) := fun h => hown h.symm
            simp [expectedArrivals, ownedReceivers, List.filter, hne]
          rw [this]

/-! ### `LoadWait` and `LoadFlow` -/

/-- The empty list of reductions: the call of `MPI_Allreduce` does not return. -/
theorem LoadWait_nil (env : Env) (st : Sched) :
    LoadWait env [] st = .blocked { st with trace := st.trace ++ [Action.allreduce] } := rfl

/-- One call of `LoadWait`, step by step. -/
theorem LoadWait_cons (env : Env) (globalDone : Nat) (later : List Nat) (st : Sched) :
    LoadWait env (globalDone :: later) st =
      if globalDone = env.size then
        if (st.BatchCur + 1) % 65536 < st.flowInfos.length then
          resumeRun (LoadFlow env later
            { st with BatchCur := (st.BatchCur + 1) % 65536, flowCom := 0, packets := 0,
                      trace := st.trace ++ [Action.allreduce, Action.stop, Action.barrier] })
        else
          .done { st with BatchCur := (st.BatchCur + 1) % 65536,
                          trace := st.trace ++ [Action.allreduce, Action.stop] }
      else .done { st with trace := st.trace ++ [Action.allreduce] } := by
  simp only [LoadWait, LoadFlow, List.append_assoc, List.singleton_append, List.cons_append,
    List.nil_append]

/-- One call of `LoadFlow`, step by step. -/
theorem LoadFlow_eq (env : Env) (reductions : List Nat) (st : Sched) :
    LoadFlow env reductions st =
      match st.flowInfos[st.BatchCur]? with
      | none => .undefined .outOfRange
      | some phase =>
        match installFlows env phase
          { st with trace := st.trace ++ [Action.phaseStart st.BatchCur] } with
        | .error e => .undefined e
        | .ok st1 => if st1.packets = 0 then LoadWait env reductions st1 else .done st1 := by
  rfl

/-! ### Traces of `LoadWait` and `LoadFlow` -/

/-- Installations load no phase. -/
theorem loadedPhases_install (apps : List App) :
    loadedPhases (apps.map Action.install) = [] := by
  induction apps with
  | nil => rfl
  | cons a apps ih => simp [loadedPhases]

/-- The phases loaded in a concatenation of traces. -/
theorem loadedPhases_append (t u : List Action) :
    loadedPhases (t ++ u) = loadedPhases t ++ loadedPhases u := by
  simp [loadedPhases, List.filterMap_append]

/-- The trace of `LoadFlow` extends the trace it starts from, when that holds
of the calls of `LoadWait` it makes. -/
theorem LoadFlow_trace (env : Env) (reductions : List Nat)
    (hw : ∀ st s, (LoadWait env reductions st).state? = some s → st.trace <+: s.trace)
    (st s : Sched) (h : (LoadFlow env reductions st).state? = some s) :
    st.trace <+: s.trace := by
  rw [LoadFlow_eq] at h
  cases hph : st.flowInfos[st.BatchCur]? with
  | none => simp [hph, Outcome.state?] at h
  | some phase =>
    simp only [hph] at h
    cases hin : installFlows env phase
        { st with trace := st.trace ++ [Action.phaseStart st.BatchCur] } with
    | error e => simp [hin, Outcome.state?] at h
    | ok st1 =>
      simp only [hin] at h
      obtain ⟨_, _, _, apps, htr⟩ := installFlows_frame _ _ _ _ hin
      have h1 : st.trace <+: st1.trace := by
        rw [htr]; simp only [List.append_assoc]; exact List.prefix_append _ _
      split at h
      · exact h1.trans (hw st1 s h)
      · simp only [Outcome.state?, Option.some.injEq] at h
        subst h; exact h1

/-- Every call of `LoadWait` votes first: the trace of its outcome extends
the trace it starts from by `allreduce`. -/
theorem LoadWait_votes (env : Env) (reductions : List Nat) (st s : Sched)
    (h : (LoadWait env reductions st).state? = some s) :
    st.trace ++ [Action.allreduce] <+: s.trace := by
  induction reductions generalizing st s with
  | nil =>
    simp only [LoadWait_nil, Outcome.state?, Option.some.injEq] at h
    subst h; exact List.prefix_refl _
  | cons g later ih =>
    rw [LoadWait_cons] at h
    split at h
    · split at h
      · have hmono := LoadFlow_trace env later
          (fun st1 s1 h1 => (List.prefix_append _ _).trans (ih st1 s1 h1))
        have hpre : ∀ t : List Action, st.trace ++ [Action.allreduce] <+:
            st.trace ++ [Action.allreduce, Action.stop, Action.barrier] ++ t := by
          intro t
          exact ⟨[Action.stop, Action.barrier] ++ t, by simp⟩
        cases hl : LoadFlow env later
            { st with BatchCur := (st.BatchCur + 1) % 65536, flowCom := 0, packets := 0,
                      trace := st.trace ++ [Action.allreduce, Action.stop, Action.barrier] } with
        | done s1 =>
          simp only [hl, resumeRun, Outcome.state?, Option.some.injEq] at h
          subst h
          obtain ⟨t, ht⟩ := hmono
            { st with BatchCur := (st.BatchCur + 1) % 65536, flowCom := 0, packets := 0,
                      trace := st.trace ++ [Action.allreduce, Action.stop, Action.barrier] }
            s1 (by rw [hl]; rfl)
          simp only at ht
          simp only [← ht, List.append_assoc]
          exact ⟨[Action.stop, Action.barrier] ++ (t ++ [Action.barrier, Action.run]), by simp⟩
        | blocked s1 =>
          simp only [hl, resumeRun, Outcome.state?, Option.some.injEq] at h
          subst h
          obtain ⟨t, ht⟩ := hmono
            { st with BatchCur := (st.BatchCur + 1) % 65536, flowCom := 0, packets := 0,
                      trace := st.trace ++ [Action.allreduce, Action.stop, Action.barrier] }
            s1 (by rw [hl]; rfl)
          simp only at ht
          rw [← ht]
          exact hpre t
        | undefined f => simp [hl, resumeRun, Outcome.state?] at h
      · simp only [Outcome.state?, Option.some.injEq] at h
        subst h
        exact ⟨[Action.stop], by simp⟩
    · simp only [Outcome.state?, Option.some.injEq] at h
      subst h
      exact List.prefix_refl _

/-! ### Phases are loaded in parse order -/

/-- While `BatchCur` cannot wrap, `LoadFlow` loads the phase `BatchCur` and
then the following ones, when that holds of the calls of `LoadWait` it makes. -/
theorem LoadFlow_loads (env : Env) (reductions : List Nat)
    (hw : ∀ st s, st.BatchCur + reductions.length ≤ 65535 →
      (LoadWait env reductions st).state? = some s →
      st.BatchCur ≤ s.BatchCur ∧ s.BatchCur ≤ st.BatchCur + reductions.length ∧
      LoadsInOrder st s (st.BatchCur + 1) (s.BatchCur - st.BatchCur))
    (st s : Sched) (hroom : st.BatchCur + reductions.length ≤ 65535)
    (h : (LoadFlow env reductions st).state? = some s) :
    st.BatchCur ≤ s.BatchCur ∧ s.BatchCur ≤ st.BatchCur + reductions.length ∧
    LoadsInOrder st s st.BatchCur (s.BatchCur - st.BatchCur + 1) := by
  rw [LoadFlow_eq] at h
  cases hph : st.flowInfos[st.BatchCur]? with
  | none => simp [hph, Outcome.state?] at h
  | some phase =>
    simp only [hph] at h
    cases hin : installFlows env phase
        { st with trace := st.trace ++ [Action.phaseStart st.BatchCur] } with
    | error e => simp [hin, Outcome.state?] at h
    | ok st1 =>
      simp only [hin] at h
      obtain ⟨e1, e2, _, apps, htr⟩ := installFlows_frame _ _ _ _ hin
      simp only at e1 e2 htr
      have hlt : st.BatchCur < st.flowInfos.length := by
        rcases Nat.lt_or_ge st.BatchCur st.flowInfos.length with hlt | hge
        · exact hlt
        · rw [List.getElem?_eq_none hge] at hph; cases hph
      split at h
      · obtain ⟨h1, h2, h3, t, h4, h5⟩ := hw st1 s (by omega) h
        refine ⟨by omega, by omega, by rw [h3, e1], ?_⟩
        refine ⟨[Action.phaseStart st.BatchCur] ++ apps.map Action.install ++ t, ?_, ?_⟩
        · rw [h4, htr]; simp
        · rw [loadedPhases_append, loadedPhases_append, loadedPhases_install, h5, e2, e1]
          simp [loadedPhases, List.range'_succ, List.filter, hlt]
      · simp only [Outcome.state?, Option.some.injEq] at h
        subst h
        refine ⟨by omega, by omega, e1, ?_⟩
        refine ⟨[Action.phaseStart st.BatchCur] ++ apps.map Action.install, ?_, ?_⟩
        · rw [htr]; simp
        · rw [loadedPhases_append, loadedPhases_install, e2]
          simp [loadedPhases, List.filter, hlt]

/-- While `BatchCur` cannot wrap, a call of `LoadWait` never rewinds
`BatchCur`, advances it by at most one per completed reduction, and loads the
phases `BatchCur + 1`, `BatchCur + 2`, ... up to the new `BatchCur`, in this
order and without a gap. -/
theorem LoadWait_loads (env : Env) (reductions : List Nat) (st s : Sched)
    (hroom : st.BatchCur + reductions.length ≤ 65535)
    (h : (LoadWait env reductions st).state? = some s) :
    st.BatchCur ≤ s.BatchCur ∧ s.BatchCur ≤ st.BatchCur + reductions.length ∧
    LoadsInOrder st s (st.BatchCur + 1) (s.BatchCur - st.BatchCur) := by
  induction reductions generalizing st s with
  | nil =>
    simp only [LoadWait_nil, Outcome.state?, Option.some.injEq] at h
    subst h
    exact ⟨le_refl _, by simp, rfl, [Action.allreduce], rfl, by simp [loadedPhases]⟩
  | cons g later ih =>
    simp only [List.length_cons] at hroom
    have hb : (st.BatchCur + 1) % 65536 = st.BatchCur + 1 := Nat.mod_eq_of_lt (by omega)
    rw [LoadWait_cons, hb] at h
    split at h
    · split at h
      · have hflow := LoadFlow_loads env later (fun st1 s1 hr h1 => ih st1 s1 hr h1)
          { st with BatchCur := st.BatchCur + 1, flowCom := 0, packets := 0,
                    trace := st.trace ++ [Action.allreduce, Action.stop, Action.barrier] }
        cases hl : LoadFlow env later
            { st with BatchCur := st.BatchCur + 1, flowCom := 0, packets := 0,
                      trace := st.trace ++ [Action.allreduce, Action.stop, Action.barrier] } with
        | done s1 =>
          simp only [hl, resumeRun, Outcome.state?, Option.some.injEq] at h
          subst h
          obtain ⟨h1, h2, h3, t, h4, h5⟩ := hflow s1 (by simp only; omega) (by rw [hl]; rfl)
          simp only at h1 h2 h3 h4 h5
          refine ⟨by simp only; omega, by simp only [List.length_cons]; omega, h3, ?_⟩
          refine ⟨[Action.allreduce, Action.stop, Action.barrier] ++ t ++
            [Action.barrier, Action.run], ?_, ?_⟩
          · simp only [h4]; simp
          · rw [loadedPhases_append, loadedPhases_append, h5]
            have : s1.BatchCur - (st.BatchCur + 1) + 1 = s1.BatchCur - st.BatchCur := by omega
            simp [loadedPhases, this]
        | blocked s1 =>
          simp only [hl, resumeRun, Outcome.state?, Option.some.injEq] at h
          subst h
          obtain ⟨h1, h2, h3, t, h4, h5⟩ := hflow s1 (by simp only; omega) (by rw [hl]; rfl)
          simp only at h1 h2 h3 h4 h5
          refine ⟨by omega, by simp only [List.length_cons]; omega, h3, ?_⟩
          refine ⟨[Action.allreduce, Action.stop, Action.barrier] ++ t, ?_, ?_⟩
          · simp only [h4]; simp
          · rw [loadedPhases_append, h5]
            have : s1.BatchCur - (st.BatchCur + 1) + 1 = s1.BatchCur - st.BatchCur := by omega
            simp [loadedPhases, this]
        | undefined f => simp [hl, resumeRun, Outcome.state?] at h
      · rename_i hfin
        simp only [Outcome.state?, Option.some.injEq] at h
        subst h
        refine ⟨by simp, by simp only [List.length_cons]; omega, rfl, ?_⟩
        refine ⟨[Action.allreduce, Action.stop], rfl, ?_⟩
        have : st.BatchCur + 1 - st.BatchCur = 1 := by omega
        simp [loadedPhases, this, List.filter, hfin]
    · simp only [Outcome.state?, Option.some.injEq] at h
      subst h
      exact ⟨le_refl _, by simp only [List.length_cons]; omega, rfl, [Action.allreduce], rfl,
        by simp [loadedPhases]⟩

/-! ### Arrivals -/

/-- One arrival while `flowCom` cannot wrap: `flowCom` grows by one, and
`LoadWait` is called exactly when the new `flowCom` has reached `packets`. -/
theorem flowRx_cb_eq (env : Env) (reductions : List Nat) (st : Sched)
    (h : st.flowCom + 1 < 4294967296) :
    flowRx_cb env reductions st =
      if st.packets ≤ st.flowCom + 1 then
        LoadWait env reductions { st with flowCom := st.flowCom + 1 }
      else .done { st with flowCom := st.flowCom + 1 } := by
  simp only [flowRx_cb, Nat.mod_eq_of_lt h, ge_iff_le]

/-- Arrivals short of `packets` only count. -/
theorem arrivals_below (env : Env) (evs : List (List Nat)) (st : Sched)
    (hp : st.packets < 4294967296) (h : st.flowCom + evs.length < st.packets) :
    arrivals env evs st = .done { st with flowCom := st.flowCom + evs.length } := by
  induction evs generalizing st with
  | nil => rfl
  | cons r rs ih =>
    simp only [List.length_cons] at h
    have hstep := flowRx_cb_eq env r st (by omega)
    rw [if_neg (by omega)] at hstep
    simp only [arrivals, hstep]
    rw [ih _ (by simpa using hp) (by simp only; omega)]
    simp only [List.length_cons]
    congr 2
    omega

/-! ### The first action of `LoadFlow`, and the wrap of `BatchCur` -/

/-- The trace of `LoadFlow` starts with the phase it loads. -/
theorem LoadFlow_starts (env : Env) (reductions : List Nat) (st s : Sched)
    (h : (LoadFlow env reductions st).state? = some s) :
    st.trace ++ [Action.phaseStart st.BatchCur] <+: s.trace := by
  rw [LoadFlow_eq] at h
  cases hph : st.flowInfos[st.BatchCur]? with
  | none => simp [hph, Outcome.state?] at h
  | some phase =>
    simp only [hph] at h
    cases hin : installFlows env phase
        { st with trace := st.trace ++ [Action.phaseStart st.BatchCur] } with
    | error e => simp [hin, Outcome.state?] at h
    | ok st1 =>
      simp only [hin] at h
      obtain ⟨_, _, _, apps, htr⟩ := installFlows_frame _ _ _ _ hin
      simp only at htr
      have hpre : st.trace ++ [Action.phaseStart st.BatchCur] <+: st1.trace := by
        rw [htr]; exact List.prefix_append _ _
      split at h
      · exact hpre.trans ((List.prefix_append _ _).trans (LoadWait_votes env reductions st1 s h))
      · simp only [Outcome.state?, Option.some.injEq] at h
        subst h; exact hpre

/-- With `BatchCur = 65535` and a plan whose phase 0 is `[flow1448]`, a full
vote wraps `BatchCur` to 0 and phase 0 is loaded again. -/
theorem LoadWait_wraps (st : Sched) (rest : List (List FlowInfo))
    (hB : st.BatchCur = 65535) (hF : st.flowInfos = [flow1448] :: rest) :
    ∃ s, LoadWait soloEnv [1] st = .done s ∧ s.BatchCur = 0 ∧
      Action.phaseStart 0 ∈ s.trace ∧ Action.run ∈ s.trace := by
  have hwrap : (65535 + 1) % 65536 = 0 := by norm_num
  rw [LoadWait_cons, if_pos (show 1 = soloEnv.size from rfl), hB, hwrap,
    if_pos (by rw [hF]; exact Nat.succ_pos _), LoadFlow_eq]
  simp only [hF, List.getElem?_cons_zero]
  have hin : ∀ s0 : Sched, installFlows soloEnv [flow1448] s0 =
      .ok { s0 with packets := (s0.packets + 1) % 4294967296,
                    trace := s0.trace ++ [Action.install (App.onOff 0 0 0 1 1 1448),
                      Action.install (App.packetSink 0 1 1
                        [Callback.SinkTrace, Callback.flowRx_cb])] } := fun _ => rfl
  rw [hin]
  simp only [Nat.zero_add, Nat.reduceMod, Nat.one_ne_zero, if_false, resumeRun]
  refine ⟨_, rfl, rfl, ?_, ?_⟩ <;> simp

/-! ### After the last phase -/

/-- A call of `LoadWait` once `BatchCur` has reached the number of phases,
while `BatchCur` cannot wrap: it votes, and on a full vote it stops the
simulator and increments `BatchCur`; it does nothing else. -/
theorem LoadWait_finished (env : Env) (reductions : List Nat) (st s : Sched)
    (hfin : st.flowInfos.length ≤ st.BatchCur) (hroom : st.BatchCur < 65535)
    (h : (LoadWait env reductions st).state? = some s) :
    s.flowInfos = st.flowInfos ∧ st.BatchCur ≤ s.BatchCur ∧ s.BatchCur ≤ st.BatchCur + 1 ∧
    ∃ t, s.trace = st.trace ++ t ∧ t.all quietAction = true := by
  cases reductions with
  | nil =>
    simp only [LoadWait_nil, Outcome.state?, Option.some.injEq] at h
    subst h
    exact ⟨rfl, le_refl _, Nat.le_succ _, [Action.allreduce], rfl, rfl⟩
  | cons g later =>
    have hb : (st.BatchCur + 1) % 65536 = st.BatchCur + 1 := Nat.mod_eq_of_lt (by omega)
    rw [LoadWait_cons, hb, if_neg (show ¬ st.BatchCur + 1 < st.flowInfos.length by omega)] at h
    split at h
    · simp only [Outcome.state?, Option.some.injEq] at h
      subst h
      exact ⟨rfl, Nat.le_succ _, le_refl _, [Action.allreduce, Action.stop], rfl, rfl⟩
    · simp only [Outcome.state?, Option.some.injEq] at h
      subst h
      exact ⟨rfl, le_refl _, Nat.le_succ _, [Action.allreduce], rfl, rfl⟩

/-- A call of `flowRx_cb` once `BatchCur` has reached the number of phases,
while `BatchCur` cannot wrap. -/
theorem flowRx_cb_finished (env : Env) (reductions : List Nat) (st s : Sched)
    (hfin : st.flowInfos.length ≤ st.BatchCur) (hroom : st.BatchCur < 65535)
    (h : (flowRx_cb env reductions st).state? = some s) :
    s.flowInfos = st.flowInfos ∧ st.BatchCur ≤ s.BatchCur ∧ s.BatchCur ≤ st.BatchCur + 1 ∧
    ∃ t, s.trace = st.trace ++ t ∧ t.all quietAction = true := by
  unfold flowRx_cb at h
  simp only at h
  split at h
  · exact LoadWait_finished env reductions
      { st with flowCom := (st.flowCom + 1) % 4294967296 } s hfin hroom h
  · simp only [Outcome.state?, Option.some.injEq] at h
    subst h
    exact ⟨rfl, le_refl _, Nat.le_succ _, [], by simp, rfl⟩

/-- A trace of votes and stops loads no phase, and holds no barrier and no
resumption of the run loop. -/
theorem quiet_trace (t : List Action) (h : t.all quietAction = true) :
    loadedPhases t = [] ∧ Action.barrier ∉ t ∧ Action.run ∉ t ∧
    ∀ a ∈ t, a = Action.allreduce ∨ a = Action.stop := by
  rw [List.all_eq_true] at h
  have hq : ∀ a ∈ t, a = Action.allreduce ∨ a = Action.stop := by
    intro a ha
    have := h a ha
    cases a <;> simp_all [quietAction]
  refine ⟨?_, ?_, ?_, hq⟩
  · rw [loadedPhases, List.filterMap_eq_nil_iff]
    intro a ha
    rcases hq a ha with rfl | rfl <;> rfl
  · intro hb
    rcases hq _ hb with h1 | h1 <;> cases h1
  · intro hb
    rcases hq _ hb with h1 | h1 <;> cases h1

/-- Arrivals once `BatchCur` has reached the number of phases, while
`BatchCur` cannot wrap: the calls of `flowRx_cb` vote and stop the simulator,
and do nothing else but count. -/
theorem arrivals_finished (env : Env) (evs : List (List Nat)) (st s : Sched)
    (hfin : st.flowInfos.length ≤ st.BatchCur) (hroom : st.BatchCur + evs.length ≤ 65535)
    (h : (arrivals env evs st).state? = some s) :
    s.flowInfos = st.flowInfos ∧ st.BatchCur ≤ s.BatchCur ∧
    s.BatchCur ≤ st.BatchCur + evs.length ∧
    ∃ t, s.trace = st.trace ++ t ∧ t.all quietAction = true := by
  induction evs generalizing st with
  | nil =>
    simp only [arrivals, Outcome.state?, Option.some.injEq] at h
    subst h
    exact ⟨rfl, le_refl _, by simp, [], by simp, rfl⟩
  | cons r rs ih =>
    simp only [List.length_cons] at hroom
    cases hr : flowRx_cb env r st with
    | undefined f => simp [arrivals, hr, Outcome.state?] at h
    | blocked st1 =>
      simp only [arrivals, hr, Outcome.state?, Option.some.injEq] at h
      subst h
      obtain ⟨h1, h2, h3, t, h4, h5⟩ :=
        flowRx_cb_finished env r st st1 hfin (by omega) (by rw [hr]; rfl)
      exact ⟨h1, h2, by simp only [List.length_cons]; omega, t, h4, h5⟩
    | done st1 =>
      simp only [arrivals, hr] at h
      obtain ⟨h1, h2, h3, t, h4, h5⟩ :=
        flowRx_cb_finished env r st st1 hfin (by omega) (by rw [hr]; rfl)
      obtain ⟨k1, k2, k3, u, k4, k5⟩ := ih st1 (by rw [h1]; omega) (by omega) h
      refine ⟨k1.trans h1, by omega, by simp only [List.length_cons]; omega, t ++ u, ?_, ?_⟩
      · rw [k4, h4, List.append_assoc]
      · rw [List.all_append, h5, k5]; rfl

/-! ### The start of `main` -/

/-- The value of `DST` after the assignment `DST=worldSize;`: the value the
global held before plays no part. -/
theorem mainStart_DST_eq (DST : Nat) (worldSize worldRank : Int) (logOpen : Bool) :
    (mainStart DST worldSize worldRank logOpen).DST = (worldSize % 65536).toNat := by
  unfold mainStart
  simp only
  split_ifs <;> rfl

/-- The assignment `DST=worldSize;` keeps a world size that fits `uint16_t`:
after it `worldSize == DST` holds. -/
theorem mainStart_DST (DST : Nat) (worldSize worldRank : Int) (logOpen : Bool)
    (h0 : 0 ≤ worldSize) (h1 : worldSize < 65536) :
    ((mainStart DST worldSize worldRank logOpen).DST : Int) = worldSize := by
  rw [mainStart_DST_eq, Int.emod_eq_of_lt h0 h1, Int.toNat_of_nonneg h0]

/-- For a world size that fits `uint16_t` the test `worldSize == DST` of line
268 succeeds: the process keeps `MPI_COMM_WORLD`, gets `NS_COLOR` and goes on. -/
theorem mainStart_in_range (DST : Nat) (worldSize worldRank : Int)
    (h0 : 0 ≤ worldSize) (h1 : worldSize < 65536) :
    mainStart DST worldSize worldRank true =
      { DST := worldSize.toNat, color := some NS_COLOR, split := false,
        outcome := .simulates } := by
  have hd : (worldSize % 65536).toNat = worldSize.toNat := by
    rw [Int.emod_eq_of_lt h0 h1]
  have he : worldSize = ((worldSize.toNat : Nat) : Int) := (Int.toNat_of_nonneg h0).symm
  unfold mainStart
  simp only [hd]
  generalize worldSize.toNat = d at he
  subst he
  simp [NS_COLOR]

/-! ### Partition of the nodes among the processes -/

/-- When `DST ≥ 1` divides `LEAF * SERVER` and there is a node, the shard size
is positive and `DST` shards make up the topology. -/
theorem shard_mul_DST (cfg : Config) (hdvd : cfg.DST ∣ cfg.LEAF * cfg.SERVER) :
    cfg.shard * cfg.DST = cfg.LEAF * cfg.SERVER := by
  unfold Config.shard
  rw [Nat.mul_comm cfg.SERVER cfg.LEAF]
  exact Nat.div_mul_cancel hdvd

/-- When `DST ≥ 1` divides `LEAF`, the shard size is `SERVER` times the
number of leaves of a process. -/
theorem shard_eq_mul_leaves (cfg : Config) (hdvd : cfg.DST ∣ cfg.LEAF) :
    cfg.shard = cfg.SERVER * (cfg.LEAF / cfg.DST) := by
  unfold Config.shard
  exact Nat.mul_div_assoc _ hdvd

/-- The system id of a server node created by `main`. -/
theorem systemIdOf_createServerNodes (cfg : Config) (p leaf server : Nat)
    (hp : leafP cfg = .ok p) (hpos : p ≠ 0) (hl : leaf < cfg.LEAF) (hs : server < cfg.SERVER) :
    ∃ nodes, createServerNodes cfg = .ok nodes ∧
      systemIdOf nodes leaf server = some (leaf / p) := by
  refine ⟨(List.range cfg.LEAF).map (fun i => List.replicate cfg.SERVER (i / p)), ?_, ?_⟩
  · simp [createServerNodes, hp, hpos]
  · simp [systemIdOf, hl, hs]

/-- On a topology with a server per leaf, for `1 ≤ DST ≤ LEAF`, the shard
size and the number of leaves of a process are not zero: the owner expression
and the creation of the server nodes are free of division by zero. -/
theorem placement_defined (cfg : Config) (hr : cfg.InRange)
    (hS : 0 < cfg.SERVER) (hD : 1 ≤ cfg.DST) (hle : cfg.DST ≤ cfg.LEAF)
    (hprod : cfg.SERVER * cfg.LEAF ≤ 2147483647) :
    cfg.shard ≠ 0 ∧ cfg.LEAF / cfg.DST ≠ 0 ∧ leafP cfg = .ok (cfg.LEAF / cfg.DST) ∧
    (∀ nodeId, ownerExpr cfg nodeId = .ok (nodeId / cfg.shard)) ∧
    ∃ nodes, createServerNodes cfg = .ok nodes := by
  have hlp : 0 < cfg.LEAF / cfg.DST := Nat.div_pos hle hD
  have hsh : cfg.shard ≠ 0 := by
    unfold Config.shard
    have : cfg.DST ≤ cfg.SERVER * cfg.LEAF := le_trans hle (Nat.le_mul_of_pos_left _ hS)
    exact Nat.pos_iff_ne_zero.1 (Nat.div_pos this hD)
  have hlt : cfg.LEAF / cfg.DST < 65536 := lt_of_le_of_lt (Nat.div_le_self _ _) hr.2.1
  have hleafP : leafP cfg = .ok (cfg.LEAF / cfg.DST) := by
    unfold leafP
    rw [if_neg (by omega), Nat.mod_eq_of_lt hlt]
  refine ⟨hsh, by omega, hleafP, fun nodeId => ownerExpr_ok cfg nodeId hprod hsh, ?_⟩
  refine ⟨(List.range cfg.LEAF).map
    (fun i => List.replicate cfg.SERVER (i / (cfg.LEAF / cfg.DST))), ?_⟩
  unfold createServerNodes
  rw [hleafP]
  simp only
  rw [if_neg (by omega)]

/-- The first six rows of `topo`: the triple selected is not zero, and with
`1 ≤ DST ≤ LEAF` neither the owner expression nor the creation of the server
nodes divides by zero. -/
theorem topo_rows_nonzero (topo_select DST : Nat) (hidx : topo_select ≤ 5) (hD : 1 ≤ DST) :
    ∃ cfg, selectTopo topo_select DST = .ok cfg ∧ cfg.DST = DST ∧
      cfg.SPINE ≠ 0 ∧ cfg.LEAF ≠ 0 ∧ cfg.SERVER ≠ 0 ∧
      (DST ≤ cfg.LEAF →
        cfg.shard ≠ 0 ∧ cfg.LEAF / cfg.DST ≠ 0 ∧
        (∀ nodeId, ownerExpr cfg nodeId = .ok (nodeId / cfg.shard)) ∧
        ∃ nodes, createServerNodes cfg = .ok nodes) := by
  have key : ∀ cfg : Config, cfg.InRange → 0 < cfg.SERVER → cfg.DST = DST →
      cfg.SERVER * cfg.LEAF ≤ 2147483647 →
      (DST ≤ cfg.LEAF →
        cfg.shard ≠ 0 ∧ cfg.LEAF / cfg.DST ≠ 0 ∧
        (∀ nodeId, ownerExpr cfg nodeId = .ok (nodeId / cfg.shard)) ∧
        ∃ nodes, createServerNodes cfg = .ok nodes) := by
    intro cfg hr hS hd hprod hle
    obtain ⟨h1, h2, _, h4, h5⟩ := placement_defined cfg hr hS (by omega) (by omega) hprod
    exact ⟨h1, h2, h4, h5⟩
  interval_cases topo_select
  all_goals
    refine ⟨_, rfl, rfl, by simp, by simp, by simp, ?_⟩
    intro hle
    simp only at hle
    exact key _ ⟨by simp, by simp, by simp, by simp only; omega⟩ (by simp) rfl (by simp) hle

/-! ### Every call of `LoadFlow` finds its phase -/

/-- Nothing loaded is a case of `LoadsExisting`. -/
theorem LoadsExisting.of_quiet (st s : Sched) (t : List Action) (hf : s.flowInfos = st.flowInfos)
    (ht : s.trace = st.trace ++ t) (hq : loadedPhases t = []) : LoadsExisting st s :=
  ⟨hf, t, ht, by rw [hq]; intro k hk; cases hk⟩

/-- Composition of two stretches of a run. -/
theorem LoadsExisting.trans {a b c : Sched} (h1 : LoadsExisting a b) (h2 : LoadsExisting b c) :
    LoadsExisting a c := by
  obtain ⟨f1, t1, e1, p1⟩ := h1
  obtain ⟨f2, t2, e2, p2⟩ := h2
  refine ⟨f2.trans f1, t1 ++ t2, by rw [e2, e1, List.append_assoc], ?_⟩
  intro k hk
  rw [loadedPhases_append, List.mem_append] at hk
  rcases hk with hk | hk
  · exact p1 k hk
  · rw [← f1]; exact p2 k hk

/-- A call of `LoadFlow` with `BatchCur` less than the number of phases, when
the calls of `LoadWait` it makes load existing phases only. -/
theorem LoadFlow_existing (env : Env) (reductions : List Nat)
    (hw : ∀ st s, (LoadWait env reductions st).state? = some s → LoadsExisting st s)
    (st s : Sched) (hb : st.BatchCur < st.flowInfos.length)
    (h : (LoadFlow env reductions st).state? = some s) : LoadsExisting st s := by
  rw [LoadFlow_eq] at h
  cases hph : st.flowInfos[st.BatchCur]? with
  | none => simp [hph, Outcome.state?] at h
  | some phase =>
    simp only [hph] at h
    cases hin : installFlows env phase
        { st with trace := st.trace ++ [Action.phaseStart st.BatchCur] } with
    | error e => simp [hin, Outcome.state?] at h
    | ok st1 =>
      simp only [hin] at h
      obtain ⟨hf, _, _, apps, htr⟩ := installFlows_frame _ _ _ _ hin
      simp only at hf htr
      have h1 : LoadsExisting st st1 := by
        refine ⟨hf, Action.phaseStart st.BatchCur :: apps.map Action.install, ?_, ?_⟩
        · rw [htr, List.append_assoc]; rfl
        · intro k hk
          have : loadedPhases (Action.phaseStart st.BatchCur :: apps.map Action.install) =
              [st.BatchCur] := by
            show loadedPhases ([Action.phaseStart st.BatchCur] ++ apps.map Action.install) = _
            rw [loadedPhases_append, loadedPhases_install]; rfl
          rw [this, List.mem_singleton] at hk
          omega
      split at h
      · exact h1.trans (hw st1 s h)
      · simp only [Outcome.state?, Option.some.injEq] at h
        subst h; exact h1

/-- Every call of `LoadFlow` that a call of `LoadWait` makes, directly or
through nested calls, has `BatchCur` less than the number of phases. -/
theorem LoadWait_existing (env : Env) (reductions : List Nat) (st s : Sched)
    (h : (LoadWait env reductions st).state? = some s) : LoadsExisting st s := by
  induction reductions generalizing st s with
  | nil =>
    simp only [LoadWait_nil, Outcome.state?, Option.some.injEq] at h
    subst h
    exact LoadsExisting.of_quiet _ _ [Action.allreduce] rfl rfl rfl
  | cons g later ih =>
    rw [LoadWait_cons] at h
    split at h
    · split at h
      next hlt =>
        cases hl : LoadFlow env later
            { st with BatchCur := (st.BatchCur + 1) % 65536, flowCom := 0, packets := 0,
                      trace := st.trace ++ [Action.allreduce, Action.stop, Action.barrier] } with
        | undefined f => simp [hl, resumeRun, Outcome.state?] at h
        | blocked s1 =>
          simp only [hl, resumeRun, Outcome.state?, Option.some.injEq] at h
          subst h
          have h2 := LoadFlow_existing env later ih _ s1 hlt (by rw [hl]; rfl)
          exact (LoadsExisting.of_quiet st
            { st with BatchCur := (st.BatchCur + 1) % 65536, flowCom := 0, packets := 0,
                      trace := st.trace ++ [Action.allreduce, Action.stop, Action.barrier] }
            [Action.allreduce, Action.stop, Action.barrier] rfl rfl rfl).trans h2
        | done s1 =>
          simp only [hl, resumeRun, Outcome.state?, Option.some.injEq] at h
          subst h
          have h2 := LoadFlow_existing env later ih _ s1 hlt (by rw [hl]; rfl)
          have h3 : LoadsExisting s1
              { s1 with trace := s1.trace ++ [Action.barrier, Action.run] } :=
            LoadsExisting.of_quiet _ _ [Action.barrier, Action.run] rfl rfl rfl
          exact ((LoadsExisting.of_quiet st
            { st with BatchCur := (st.BatchCur + 1) % 65536, flowCom := 0, packets := 0,
                      trace := st.trace ++ [Action.allreduce, Action.stop, Action.barrier] }
            [Action.allreduce, Action.stop, Action.barrier] rfl rfl rfl).trans h2).trans h3
      next =>
        simp only [Outcome.state?, Option.some.injEq] at h
        subst h
        exact LoadsExisting.of_quiet _ _ [Action.allreduce, Action.stop] rfl rfl rfl
    · simp only [Outcome.state?, Option.some.injEq] at h
      subst h
      exact LoadsExisting.of_quiet _ _ [Action.allreduce] rfl rfl rfl

/-- The calls of `LoadFlow` made during a call of `flowRx_cb` have `BatchCur`
less than the number of phases. -/
theorem flowRx_cb_existing (env : Env) (reductions : List Nat) (st s : Sched)
    (h : (flowRx_cb env reductions st).state? = some s) : LoadsExisting st s := by
  have hcount : LoadsExisting st { st with flowCom := (st.flowCom + 1) % 4294967296 } :=
    LoadsExisting.of_quiet _ _ [] rfl (by simp) rfl
  unfold flowRx_cb at h
  simp only at h
  split at h
  · exact hcount.trans (LoadWait_existing env reductions _ s h)
  · simp only [Outcome.state?, Option.some.injEq] at h
    subst h; exact hcount

/-- The calls of `LoadFlow` made during arrivals have `BatchCur` less than
the number of phases. -/
theorem arrivals_existing (env : Env) (evs : List (List Nat)) (st s : Sched)
    (h : (arrivals env evs st).state? = some s) : LoadsExisting st s := by
  induction evs generalizing st with
  | nil =>
    simp only [arrivals, Outcome.state?, Option.some.injEq] at h
    subst h
    exact LoadsExisting.of_quiet _ _ [] rfl (by simp) rfl
  | cons r rs ih =>
    cases hr : flowRx_cb env r st with
    | undefined f => simp [arrivals, hr, Outcome.state?] at h
    | blocked st1 =>
      simp only [arrivals, hr] at h
      exact flowRx_cb_existing env r st s (by rw [hr]; exact h)
    | done st1 =>
      simp only [arrivals, hr] at h
      exact (flowRx_cb_existing env r st st1 (by rw [hr]; rfl)).trans (ih st1 h)

/-! ### Runs of an installable plan -/

/-- The loop of `LoadFlow` completes on a phase whose flows can be installed. -/
theorem installFlows_ok_of (env : Env) (phase : List FlowInfo) (st : Sched)
    (h : ∀ flow ∈ phase, ∃ apps, CreateFlow env flow = .ok apps) :
    ∃ st1, installFlows env phase st = .ok st1 := by
  induction phase generalizing st with
  | nil => exact ⟨st, rfl⟩
  | cons flow flows ih =>
    obtain ⟨apps, hc⟩ := h flow (List.mem_cons_self _ _)
    obtain ⟨hprod, hnz, _⟩ := CreateFlow_ok env flow apps hc
    have ho := ownerExpr_ok env.cfg flow.dstNodeId hprod hnz
    simp only [installFlows, hc, ho]
    exact ih _ (fun fl hfl => h fl (List.mem_cons_of_mem _ hfl))

/-- One execution of the step of `LoadFlow`: the applications that
`CreateFlow` installs are appended to the trace. -/
theorem installFlows_single (env : Env) (flow : FlowInfo) (st st1 : Sched)
    (h : installFlows env [flow] st = .ok st1) :
    ∃ apps, CreateFlow env flow = .ok apps ∧
      st1.trace = st.trace ++ apps.map Action.install := by
  cases hc : CreateFlow env flow with
  | error e => simp [installFlows, hc] at h
  | ok apps =>
    cases ho : ownerExpr env.cfg flow.dstNodeId with
    | error e => simp [installFlows, hc, ho] at h
    | ok o =>
      simp only [installFlows, hc, ho, Except.ok.injEq] at h
      refine ⟨apps, rfl, ?_⟩
      rw [← h]
      split <;> rfl

/-- The end of `LoadWait` keeps an outcome that is not undefined. -/
theorem resumeRun_defined (o : Outcome) (h : ∀ f, o ≠ .undefined f) (f : Fault) :
    resumeRun o ≠ .undefined f := by
  cases o with
  | done s => simp [resumeRun]
  | blocked s => simp [resumeRun]
  | undefined g => exact absurd rfl (h g)

/-- A call of `LoadFlow` with `BatchCur` less than the number of phases of an
installable plan is defined, when the calls of `LoadWait` it makes are. -/
theorem LoadFlow_defined (env : Env) (reductions : List Nat)
    (hw : ∀ st, Installable env st.flowInfos →
      ∀ f, LoadWait env reductions st ≠ .undefined f)
    (st : Sched) (hb : st.BatchCur < st.flowInfos.length)
    (hi : Installable env st.flowInfos) (f : Fault) :
    LoadFlow env reductions st ≠ .undefined f := by
  rw [LoadFlow_eq, List.getElem?_eq_getElem hb]
  simp only
  obtain ⟨st1, hin⟩ := installFlows_ok_of env (st.flowInfos[st.BatchCur])
    { st with trace := st.trace ++ [Action.phaseStart st.BatchCur] }
    (hi _ (List.getElem_mem _))
  rw [hin]
  simp only
  obtain ⟨hf, _⟩ := installFlows_frame _ _ _ _ hin
  simp only at hf
  split
  · exact hw st1 (by rw [hf]; exact hi) f
  · simp

/-- A call of `LoadWait` on an installable plan is defined: no call of
`LoadFlow` it makes looks up a phase that does not exist. -/
theorem LoadWait_defined (env : Env) (reductions : List Nat) (st : Sched)
    (hi : Installable env st.flowInfos) (f : Fault) :
    LoadWait env reductions st ≠ .undefined f := by
  induction reductions generalizing st f with
  | nil => simp [LoadWait_nil]
  | cons g later ih =>
    rw [LoadWait_cons]
    split
    · split
      next hlt =>
        exact resumeRun_defined _
          (fun f1 => LoadFlow_defined env later (fun st1 h1 f2 => ih st1 h1 f2)
            { st with BatchCur := (st.BatchCur + 1) % 65536, flowCom := 0, packets := 0,
                      trace := st.trace ++ [Action.allreduce, Action.stop, Action.barrier] }
            hlt hi f1) f
      next => simp
    · simp

/-- A call of `flowRx_cb` on an installable plan is defined. -/
theorem flowRx_cb_defined (env : Env) (reductions : List Nat) (st : Sched)
    (hi : Installable env st.flowInfos) (f : Fault) :
    flowRx_cb env reductions st ≠ .undefined f := by
  unfold flowRx_cb
  simp only
  split
  · exact LoadWait_defined env reductions
      { st with flowCom := (st.flowCom + 1) % 4294967296 } hi f
  · simp

/-- Arrivals on an installable plan are defined. -/
theorem arrivals_defined (env : Env) (evs : List (List Nat)) (st : Sched)
    (hi : Installable env st.flowInfos) (f : Fault) :
    arrivals env evs st ≠ .undefined f := by
  induction evs generalizing st with
  | nil => simp [arrivals]
  | cons r rs ih =>
    cases hr : flowRx_cb env r st with
    | undefined g => exact absurd hr (flowRx_cb_defined env r st hi g)
    | blocked st1 => simp [arrivals, hr]
    | done st1 =>
      simp only [arrivals, hr]
      have hf := (flowRx_cb_existing env r st st1 (by rw [hr]; rfl)).1
      exact ih st1 (by rw [hf]; exact hi)

/-! ### The properties -/

/-- C11: for every configuration in which the product `SERVER*LEAF` fits
`int` and `SERVER*LEAF/DST` is not zero, the owner expression that
`CreateFlow` evaluates for the source and for the destination node, and that
`LoadFlow` evaluates for the destination node, yields
`nodeId / (SERVER * LEAF / DST)` with truncating division: the quotient `o`
with `o * shard ≤ nodeId < (o + 1) * shard`. -/
theorem owner_is_truncated_quotient (cfg : Config) (flow : FlowInfo)
    (hprod : cfg.SERVER * cfg.LEAF ≤ 2147483647)
    (hnz : cfg.SERVER * cfg.LEAF / cfg.DST ≠ 0) :
    ownerExpr cfg flow.srcNodeId = .ok (flow.srcNodeId / (cfg.SERVER * cfg.LEAF / cfg.DST)) ∧
    ownerExpr cfg flow.dstNodeId = .ok (flow.dstNodeId / (cfg.SERVER * cfg.LEAF / cfg.DST)) ∧
    ∀ nodeId : Nat, ∃ o, ownerExpr cfg nodeId = .ok o ∧
      o * (cfg.SERVER * cfg.LEAF / cfg.DST) ≤ nodeId ∧
      nodeId < (o + 1) * (cfg.SERVER * cfg.LEAF / cfg.DST) := by
  refine ⟨ownerExpr_ok cfg _ hprod hnz, ownerExpr_ok cfg _ hprod hnz, ?_⟩
  intro nodeId
  refine ⟨nodeId / (cfg.SERVER * cfg.LEAF / cfg.DST), ownerExpr_ok cfg nodeId hprod hnz,
    Nat.div_mul_le_self _ _, ?_⟩
  have h1 := Nat.div_add_mod nodeId (cfg.SERVER * cfg.LEAF / cfg.DST)
  have h2 := Nat.mod_lt nodeId (Nat.pos_of_ne_zero hnz)
  rw [Nat.add_mul, Nat.one_mul, Nat.mul_comm (nodeId / _) _]
  omega

/-- Witness for C11 on the topology `{4, 8, 8}` with two processes: the shard
size is 32 and node 40 belongs to process 1. -/
theorem owner_is_truncated_quotient_witness :
    (pairEnv.cfg.SERVER * pairEnv.cfg.LEAF ≤ 2147483647 ∧
      pairEnv.cfg.SERVER * pairEnv.cfg.LEAF / pairEnv.cfg.DST ≠ 0) ∧
    ownerExpr pairEnv.cfg flowAway.srcNodeId = .ok 0 ∧
    ownerExpr pairEnv.cfg flowAway.dstNodeId = .ok 1 :=
  ⟨by decide,
    (owner_is_truncated_quotient pairEnv.cfg flowAway (by decide) (by decide)).1,
    (owner_is_truncated_quotient pairEnv.cfg flowAway (by decide) (by decide)).2.1⟩

/-- C12 (counterexample): a single owned flow of `1448 * 2 ^ 32` bytes has
`2 ^ 32` segments, and `packets` is 0 after the loop of `LoadFlow`. -/
theorem packets_wraps_at_two_pow_32 :
    expectedArrivals pairEnv [hugeFlow] = 4294967296 ∧
    ∃ st, installFlows pairEnv [hugeFlow] (idle [[hugeFlow]]) = .ok st ∧ st.packets = 0 :=
  ⟨by decide, _, rfl, rfl⟩

/-- C12 (amended): when the loop of `LoadFlow` starts with `packets = 0` and
completes, `packets` equals, modulo `2 ^ 32`, the sum over the flows of the
phase whose destination owner is this process of `ceil (msgLen / 1448)`; it
equals that sum when the sum is below `2 ^ 32`.  A flow of 1448 bytes counts
1 and a flow of 3000 bytes counts 3. -/
theorem packets_eq_expected_arrivals_mod (env : Env) (phase : List FlowInfo) (st st' : Sched)
    (h : installFlows env phase st = .ok st') (h0 : st.packets = 0) :
    st'.packets = expectedArrivals env phase % 4294967296 ∧
    (expectedArrivals env phase < 4294967296 → st'.packets = expectedArrivals env phase) ∧
    segments 1448 = 1 ∧ segments 3000 = 3 := by
  have hp := installFlows_packets env phase st st' h (by omega)
  rw [h0, Nat.zero_add] at hp
  exact ⟨hp, fun hlt => by rw [hp, Nat.mod_eq_of_lt hlt], by decide, by decide⟩

/-- Witness for C12 (amended): on process 0 of two, the phase
`[flow1448, flow3000, flowAway]` gives `packets = 1 + 3`. -/
theorem packets_eq_expected_arrivals_mod_witness :
    (∃ st', installFlows pairEnv [flow1448, flow3000, flowAway]
        (idle [[flow1448, flow3000, flowAway]]) = .ok st' ∧ st'.packets = 4) ∧
    (4 : Nat) = expectedArrivals pairEnv [flow1448, flow3000, flowAway] % 4294967296 :=
  ⟨⟨_, rfl, rfl⟩,
    (packets_eq_expected_arrivals_mod pairEnv [flow1448, flow3000, flowAway]
      (idle [[flow1448, flow3000, flowAway]]) _ rfl rfl).1⟩

/-- C13: when `CreateFlow` completes for a flow on process `systemId`, it has
installed a send-side application if and only if `systemId` is the owner of
the source node, a sink with `flowRx_cb` connected if and only if `systemId`
is the owner of the destination node, and no application at all when it is
neither. -/
theorem CreateFlow_installs_owned_endpoints (env : Env) (flow : FlowInfo) (apps : List App)
    (h : CreateFlow env flow = .ok apps) :
    ((∃ a ∈ apps, a.isSender = true) ↔
      env.systemId = flow.srcNodeId / (env.cfg.SERVER * env.cfg.LEAF / env.cfg.DST)) ∧
    ((∃ a ∈ apps, a.isReceiver = true) ↔
      env.systemId = flow.dstNodeId / (env.cfg.SERVER * env.cfg.LEAF / env.cfg.DST)) ∧
    (env.systemId ≠ flow.srcNodeId / (env.cfg.SERVER * env.cfg.LEAF / env.cfg.DST) →
      env.systemId ≠ flow.dstNodeId / (env.cfg.SERVER * env.cfg.LEAF / env.cfg.DST) →
      apps = []) := by
  obtain ⟨_, _, rfl⟩ := CreateFlow_ok env flow apps h
  clear h
  unfold Config.shard
  generalize flow.srcNodeId / (env.cfg.SERVER * env.cfg.LEAF / env.cfg.DST) = so
  generalize flow.dstNodeId / (env.cfg.SERVER * env.cfg.LEAF / env.cfg.DST) = dOwner
  by_cases h1 : env.systemId = so <;> by_cases h2 : env.systemId = dOwner
  · subst h1; subst h2; simp [App.isSender, App.isReceiver]
  · subst h1; simp [h2, App.isSender, App.isReceiver]
  · subst h2; simp [h1, App.isSender, App.isReceiver]
  · simp [h1, h2]

/-- Witness for C13 on process 0 of two: for `flowAway` (node 1 to node 40)
only the sender is installed. -/
theorem CreateFlow_installs_owned_endpoints_witness :
    CreateFlow pairEnv flowAway = .ok [App.onOff 0 1 5 0 1 1448] ∧
    ((∃ a ∈ [App.onOff 0 1 5 0 1 1448], a.isSender = true) ↔
      pairEnv.systemId = flowAway.srcNodeId /
        (pairEnv.cfg.SERVER * pairEnv.cfg.LEAF / pairEnv.cfg.DST)) :=
  ⟨rfl, (CreateFlow_installs_owned_endpoints pairEnv flowAway _ rfl).1⟩

/-- C14: let `st1` be the globals after the loop of `LoadFlow` has installed
the flows of the current phase.  If `st1.packets` is zero, `LoadFlow` calls
`LoadWait`, whose first action is the vote; this is the case when the process
owns no receiver of the phase.  If `st1.packets` is not zero, `LoadFlow`
returns without a vote. -/
theorem LoadFlow_votes_iff_no_packets (env : Env) (reductions : List Nat) (st st1 : Sched)
    (phase : List FlowInfo)
    (hph : st.flowInfos[st.BatchCur]? = some phase)
    (hin : installFlows env phase
      { st with trace := st.trace ++ [Action.phaseStart st.BatchCur] } = .ok st1) :
    (st1.packets = 0 →
      LoadFlow env reductions st = LoadWait env reductions st1 ∧
      ∀ s, (LoadFlow env reductions st).state? = some s →
        st1.trace ++ [Action.allreduce] <+: s.trace) ∧
    (st1.packets ≠ 0 →
      LoadFlow env reductions st = .done st1 ∧
      Action.allreduce ∉ st1.trace.drop st.trace.length) ∧
    (st.packets = 0 → ownedReceivers env phase = [] → st1.packets = 0) := by
  have heq : LoadFlow env reductions st =
      if st1.packets = 0 then LoadWait env reductions st1 else .done st1 := by
    rw [LoadFlow_eq]; simp only [hph, hin]
  refine ⟨fun hz => ?_, fun hnz => ?_, fun h0 hown => ?_⟩
  · rw [heq, if_pos hz]
    exact ⟨rfl, fun s hs => LoadWait_votes env reductions st1 s hs⟩
  · rw [heq, if_neg hnz]
    refine ⟨rfl, ?_⟩
    obtain ⟨_, _, _, apps, htr⟩ := installFlows_frame _ _ _ _ hin
    simp only at htr
    rw [htr, List.append_assoc, List.drop_left]
    simp
  · have hp := installFlows_packets env phase _ st1 hin (by simp only; omega)
    simp only [h0, Nat.zero_add] at hp
    rw [hp]
    simp [expectedArrivals, hown]

/-- Witness for C14 on process 0 of two, with the phase `[flowAway]` in which
it owns no receiver: `LoadFlow` votes. -/
theorem LoadFlow_votes_iff_no_packets_witness :
    (idle [[flowAway]]).flowInfos[(idle [[flowAway]]).BatchCur]? = some [flowAway] ∧
    LoadFlow pairEnv [2] (idle [[flowAway]]) =
      LoadWait pairEnv [2]
        { flowInfos := [[flowAway]], packets := 0, BatchCur := 0, flowCom := 0,
          trace := [Action.phaseStart 0, Action.install (App.onOff 0 1 5 0 1 1448)] } ∧
    LoadFlow pairEnv [2] (idle [[flowAway]]) =
      .done { flowInfos := [[flowAway]], packets := 0, BatchCur := 1, flowCom := 0,
              trace := [Action.phaseStart 0, Action.install (App.onOff 0 1 5 0 1 1448),
                        Action.allreduce, Action.stop] } :=
  ⟨rfl,
    ((LoadFlow_votes_iff_no_packets pairEnv [2] (idle [[flowAway]]) _ [flowAway] rfl rfl).1
      rfl).1,
    rfl⟩

/-- C15: in a phase with `packets = n ≥ 1` and `flowCom = 0`, after any `k < n`
arrivals the globals differ from the start only by `flowCom = k` (each call of
`flowRx_cb` has added one, and no vote was cast), and the next call of
`flowRx_cb` sets `flowCom = k + 1` and calls `LoadWait` exactly when
`k + 1 = n`.  With the single owned flow of 1448 bytes `packets` is 1 and the
first arrival completes the phase. -/
theorem vote_at_nth_arrival (env : Env) (st : Sched) (n : Nat) (evs : List (List Nat))
    (r : List Nat) (hn : 1 ≤ n) (hn32 : n < 4294967296) (hp : st.packets = n)
    (h0 : st.flowCom = 0) (hk : evs.length < n) :
    arrivals env evs st = .done { st with flowCom := evs.length } ∧
    flowRx_cb env r { st with flowCom := evs.length } =
      (if evs.length + 1 = n then LoadWait env r { st with flowCom := evs.length + 1 }
       else .done { st with flowCom := evs.length + 1 }) ∧
    (∃ s1, LoadFlow soloEnv [1] (idle [[flow1448]]) = .done s1 ∧ s1.packets = 1 ∧
      s1.flowCom = 0 ∧
      flowRx_cb soloEnv [1] s1 =
        .done { flowInfos := s1.flowInfos, packets := s1.packets, BatchCur := 1, flowCom := 1,
                trace := s1.trace ++ [Action.allreduce, Action.stop] }) := by
  refine ⟨?_, ?_, ⟨_, rfl, rfl, rfl, rfl⟩⟩
  · have := arrivals_below env evs st (by omega) (by omega)
    simpa [h0] using this
  · rw [flowRx_cb_eq env r _ (by simp only; omega)]
    simp only [hp]
    by_cases hlast : evs.length + 1 = n
    · rw [if_pos (by omega), if_pos hlast]
    · rw [if_neg (by omega), if_neg hlast]

/-- Witness for C15 with `packets = 3`: two arrivals only count, the third
calls `LoadWait`. -/
theorem vote_at_nth_arrival_witness :
    ((1 : Nat) ≤ 3 ∧ (3 : Nat) < 4294967296 ∧ awaitingThree.packets = 3 ∧
      awaitingThree.flowCom = 0 ∧ [[2], [2]].length < 3) ∧
    arrivals pairEnv [[2], [2]] awaitingThree =
      .done { flowInfos := [[flow3000]], packets := 3, BatchCur := 0, flowCom := 2,
              trace := [] } ∧
    arrivals pairEnv [[2], [2], [2]] awaitingThree =
      .done { flowInfos := [[flow3000]], packets := 3, BatchCur := 1, flowCom := 3,
              trace := [Action.allreduce, Action.stop] } :=
  ⟨by decide,
    (vote_at_nth_arrival pairEnv awaitingThree 3 [[2], [2]] [2]
      (by decide) (by decide) rfl rfl (by decide)).1,
    by decide⟩

/-- C17 (counterexample): in the last phase of a plan of 65536 phases
`BatchCur` is 65535; a full vote makes it 0, and `LoadWait` loads phase 0
again and resumes the run loop although no phase remains. -/
theorem BatchCur_wraps_at_65536_phases :
    lastOf65536.BatchCur + 1 = lastOf65536.flowInfos.length ∧
    ∃ s, LoadWait soloEnv [1] lastOf65536 = .done s ∧ s.BatchCur = 0 ∧
      Action.phaseStart 0 ∈ s.trace ∧ Action.run ∈ s.trace := by
  have hlen : lastOf65536.flowInfos.length = 65536 := by
    show ([flow1448] :: List.replicate 65535 []).length = 65536
    rw [List.length_cons, List.length_replicate]
  exact ⟨by rw [hlen]; rfl, LoadWait_wraps lastOf65536 (List.replicate 65535 []) rfl rfl⟩

/-- C17 (amended): when `LoadWait` observes a reduction equal to the group
size, it stops the simulator and sets `BatchCur` to `(BatchCur + 1) mod 65536`,
which is `BatchCur + 1` while `BatchCur < 65535`.  If the new `BatchCur` is
less than the number of phases, `LoadWait` resets `flowCom` and `packets` to
zero, performs a barrier and calls `LoadFlow`, which loads the phase of index
`BatchCur`; when that call returns, `LoadWait` performs a second barrier and
resumes `Simulator::Run`.  Otherwise `LoadWait` returns with no other effect:
it loads no phase and does not resume the run loop.  While `BatchCur` cannot
reach 65535, the phases loaded during the call, including those loaded by the
nested calls of `LoadWait`, are the phases `BatchCur + 1`, `BatchCur + 2`, ...
of the plan, in this order and without a gap. -/
theorem LoadWait_with_quorum (env : Env) (globalDone : Nat) (later : List Nat) (st : Sched)
    (h : globalDone = env.size) :
    (st.BatchCur < 65535 → (st.BatchCur + 1) % 65536 = st.BatchCur + 1) ∧
    ((st.BatchCur + 1) % 65536 < st.flowInfos.length →
      LoadWait env (globalDone :: later) st =
        resumeRun (LoadFlow env later
          { st with BatchCur := (st.BatchCur + 1) % 65536, flowCom := 0, packets := 0,
                    trace := st.trace ++ [Action.allreduce, Action.stop, Action.barrier] }) ∧
      ∀ s, LoadWait env (globalDone :: later) st = .done s →
        ∃ t, s.trace =
          st.trace ++ [Action.allreduce, Action.stop, Action.barrier,
            Action.phaseStart ((st.BatchCur + 1) % 65536)] ++ t ++
            [Action.barrier, Action.run]) ∧
    (¬ (st.BatchCur + 1) % 65536 < st.flowInfos.length →
      LoadWait env (globalDone :: later) st =
        .done { st with BatchCur := (st.BatchCur + 1) % 65536,
                        trace := st.trace ++ [Action.allreduce, Action.stop] }) ∧
    (st.BatchCur + (later.length + 1) ≤ 65535 →
      ∀ s, (LoadWait env (globalDone :: later) st).state? = some s →
        st.BatchCur ≤ s.BatchCur ∧
        LoadsInOrder st s (st.BatchCur + 1) (s.BatchCur - st.BatchCur)) := by
  refine ⟨fun hb => Nat.mod_eq_of_lt (by omega), fun hlt => ?_, fun hge => ?_,
    fun hroom s hs => ?_⟩
  · have heq := LoadWait_cons env globalDone later st
    rw [if_pos h, if_pos hlt] at heq
    refine ⟨heq, fun s hs => ?_⟩
    rw [heq] at hs
    cases hl : LoadFlow env later
        { st with BatchCur := (st.BatchCur + 1) % 65536, flowCom := 0, packets := 0,
                  trace := st.trace ++ [Action.allreduce, Action.stop, Action.barrier] } with
    | undefined f => simp [hl, resumeRun] at hs
    | blocked s1 => simp [hl, resumeRun] at hs
    | done s1 =>
      simp only [hl, resumeRun, Outcome.done.injEq] at hs
      obtain ⟨t, ht⟩ := LoadFlow_starts env later _ s1 (by rw [hl]; rfl)
      simp only at ht
      refine ⟨t, ?_⟩
      rw [← hs]
      simp only
      rw [← ht]
      simp
  · rw [LoadWait_cons, if_pos h, if_neg hge]
  · have hl := LoadWait_loads env (globalDone :: later) st s
      (by simp only [List.length_cons]; omega) hs
    exact ⟨hl.1, hl.2.2⟩

/-- Witness for C17 (amended): the first of two phases has completed on a
group of one process; `LoadWait` loads the second phase and resumes. -/
theorem LoadWait_with_quorum_witness :
    (1 : Nat) = soloEnv.size ∧
    LoadWait soloEnv [1] firstOfTwoDone =
      resumeRun (LoadFlow soloEnv []
        { flowInfos := [[flow1448], [flow3000]], packets := 0, BatchCur := 1, flowCom := 0,
          trace := [Action.allreduce, Action.stop, Action.barrier] }) ∧
    LoadWait soloEnv [1] firstOfTwoDone =
      .done { flowInfos := [[flow1448], [flow3000]], packets := 3, BatchCur := 1,
              flowCom := 0,
              trace := [Action.allreduce, Action.stop, Action.barrier, Action.phaseStart 1,
                        Action.install (App.onOff 5 0 0 2 1 3000),
                        Action.install (App.packetSink 0 2 1
                          [Callback.SinkTrace, Callback.flowRx_cb]),
                        Action.barrier, Action.run] } :=
  ⟨rfl, ((LoadWait_with_quorum soloEnv 1 [] firstOfTwoDone rfl).2.1 (by decide)).1, rfl⟩

/-- C18: when the reduction delivers a value different from the group size,
`LoadWait` returns after the vote, which is its only action: `BatchCur`,
`flowCom`, `packets` and `flowInfos` are unchanged, the simulator is not
stopped and no phase is loaded. -/
theorem LoadWait_without_quorum (env : Env) (globalDone : Nat) (later : List Nat) (st : Sched)
    (h : globalDone ≠ env.size) :
    ∃ s, LoadWait env (globalDone :: later) st = .done s ∧
      s.BatchCur = st.BatchCur ∧ s.flowCom = st.flowCom ∧ s.packets = st.packets ∧
      s.flowInfos = st.flowInfos ∧ s.trace = st.trace ++ [Action.allreduce] ∧
      Action.stop ∉ s.trace.drop st.trace.length ∧
      loadedPhases (s.trace.drop st.trace.length) = [] := by
  rw [LoadWait_cons, if_neg h]
  refine ⟨_, rfl, rfl, rfl, rfl, rfl, rfl, ?_, ?_⟩ <;> simp [loadedPhases]

/-- Witness for C18 on process 0 of two, with a reduction that delivers 1. -/
theorem LoadWait_without_quorum_witness :
    (1 : Nat) ≠ pairEnv.size ∧
    ∃ s, LoadWait pairEnv [1] awaitingThree = .done s ∧
      s.BatchCur = 0 ∧ s.flowCom = 0 ∧ s.packets = 3 ∧ s.trace = [Action.allreduce] :=
  ⟨by decide,
    (LoadWait_without_quorum pairEnv 1 [] awaitingThree (by decide)).imp
      (fun _ hs => ⟨hs.1, hs.2.1, hs.2.2.1, hs.2.2.2.1, hs.2.2.2.2.2.1⟩)⟩

/-- C19 (counterexample): on a group of one process the only phase, a flow of
0 bytes, completes while it is loaded, so that `BatchCur` equals the number of
phases before the run loop starts; a call of `flowRx_cb` in this state votes
again, stops the simulator and sets `BatchCur` to 2. -/
theorem finished_callback_votes_again :
    ∃ s1, LoadFlow soloEnv [1] (idle [[zeroFlow]]) = .done s1 ∧
      s1.BatchCur = s1.flowInfos.length ∧
      ∃ s2, flowRx_cb soloEnv [1] s1 = .done s2 ∧ s2.BatchCur = 2 ∧
        s2.trace = s1.trace ++ [Action.allreduce, Action.stop] :=
  ⟨_, rfl, rfl, _, rfl, rfl, rfl⟩

/-- C19 (amended): once `BatchCur` has reached the number of phases, and
while it is below 65535, no later call of `flowRx_cb` loads a phase, performs
a barrier or resumes the run loop, and `BatchCur` is never rewound: it stays
at or above the number of phases.  The calls do vote, and a full vote stops
the simulator and increments `BatchCur`: these are their only actions. -/
theorem finished_loads_no_phase (env : Env) (evs : List (List Nat)) (st s : Sched)
    (hfin : st.flowInfos.length ≤ st.BatchCur) (hroom : st.BatchCur + evs.length ≤ 65535)
    (h : (arrivals env evs st).state? = some s) :
    s.flowInfos = st.flowInfos ∧ s.flowInfos.length ≤ s.BatchCur ∧
    st.BatchCur ≤ s.BatchCur ∧
    ∃ t, s.trace = st.trace ++ t ∧ loadedPhases t = [] ∧ Action.barrier ∉ t ∧
      Action.run ∉ t ∧ ∀ a ∈ t, a = Action.allreduce ∨ a = Action.stop := by
  obtain ⟨h1, h2, _, t, h4, h5⟩ := arrivals_finished env evs st s hfin hroom h
  exact ⟨h1, by rw [h1]; omega, h2, t, h4, quiet_trace t h5⟩

/-- Witness for C19 (amended): two arrivals after the only phase of the plan
`[[flow1448]]` has completed. -/
theorem finished_loads_no_phase_witness :
    (finishedState.flowInfos.length ≤ finishedState.BatchCur ∧
      finishedState.BatchCur + [[1], [1]].length ≤ 65535) ∧
    arrivals soloEnv [[1], [1]] finishedState =
      .done { flowInfos := [[flow1448]], packets := 1, BatchCur := 3, flowCom := 3,
              trace := [Action.allreduce, Action.stop, Action.allreduce, Action.stop] } ∧
    (1 : Nat) ≤ 3 :=
  ⟨by decide, rfl,
    (finished_loads_no_phase soloEnv [[1], [1]] finishedState
      { flowInfos := [[flow1448]], packets := 1, BatchCur := 3, flowCom := 3,
        trace := [Action.allreduce, Action.stop, Action.allreduce, Action.stop] }
      (by decide) (by decide) rfl).2.2.1⟩

/-- C20 (counterexample): with 4 launched processes and a configured `DST`
of 2, the world size differs from the configured count and rank 3 is not
below it; yet `DST` becomes 4, no split takes place, and rank 3 gets
`NS_COLOR` and goes on to the topology. -/
theorem configured_DST_is_overwritten :
    (4 : Int) ≠ ((2 : Nat) : Int) ∧ ¬ ((3 : Int) < ((2 : Nat) : Int)) ∧
    mainStart 2 4 3 true =
      { DST := 4, color := some NS_COLOR, split := false, outcome := .simulates } :=
  ⟨by decide, by decide, by decide⟩

/-- C20 (amended): `main` overwrites `DST` with the world size (line 250)
before the test of line 268, so the configured value plays no part.  For a
world size that fits `uint16_t` no split takes place: every process gets
`NS_COLOR` and goes on to the topology.  The split is reached only when the
world size differs from its `uint16_t` conversion `DST`: then the colour is
`NS_COLOR` exactly when the world rank is below `DST`, and otherwise it is
`NOT_NS_COLOR` and `main` returns 0 at line 310, before the topology and the
workload are created.  A process that cannot open its log file returns 1
before it gets a colour. -/
theorem split_only_beyond_uint16 (DST : Nat) (worldSize worldRank : Int) (logOpen : Bool) :
    (mainStart DST worldSize worldRank logOpen).DST = (worldSize % 65536).toNat ∧
    (logOpen = true → 0 ≤ worldSize → worldSize < 65536 →
      mainStart DST worldSize worldRank logOpen =
        { DST := worldSize.toNat, color := some NS_COLOR, split := false,
          outcome := .simulates }) ∧
    (logOpen = true →
      worldSize ≠ ((mainStart DST worldSize worldRank logOpen).DST : Int) →
      ¬ (0 ≤ worldSize ∧ worldSize < 65536) ∧
      (mainStart DST worldSize worldRank logOpen).split = true ∧
      ((mainStart DST worldSize worldRank logOpen).color = some NS_COLOR ↔
        worldRank < ((mainStart DST worldSize worldRank logOpen).DST : Int)) ∧
      (worldRank < ((mainStart DST worldSize worldRank logOpen).DST : Int) →
        (mainStart DST worldSize worldRank logOpen).outcome = .simulates) ∧
      (¬ worldRank < ((mainStart DST worldSize worldRank logOpen).DST : Int) →
        (mainStart DST worldSize worldRank logOpen).color = some NOT_NS_COLOR ∧
        (mainStart DST worldSize worldRank logOpen).outcome = .returned 0)) ∧
    (logOpen = false →
      (mainStart DST worldSize worldRank logOpen).color = none ∧
      (mainStart DST worldSize worldRank logOpen).outcome = .returned 1) := by
  refine ⟨mainStart_DST_eq DST worldSize worldRank logOpen, ?_, ?_, ?_⟩
  · intro hlog h0 h1
    subst hlog
    exact mainStart_in_range DST worldSize worldRank h0 h1
  · intro hlog hdiff
    subst hlog
    have hnot : ¬ (0 ≤ worldSize ∧ worldSize < 65536) := fun hr =>
      hdiff (mainStart_DST DST worldSize worldRank true hr.1 hr.2).symm
    rw [mainStart_DST_eq] at hdiff ⊢
    unfold mainStart
    simp only
    generalize (worldSize % 65536).toNat = d at hdiff ⊢
    refine ⟨hnot, ?_⟩
    by_cases hlt : worldRank < (d : Int)
    · simp [hdiff, hlt, NS_COLOR, NOT_NS_COLOR]
    · simp [hdiff, hlt, NS_COLOR, NOT_NS_COLOR]
  · intro hlog
    subst hlog
    exact ⟨rfl, rfl⟩

/-- Witness for C20 (amended): with 4 launched processes and a configured
`DST` of 2 every rank simulates without a split; with 65538 launched
processes `DST` is 2, rank 1 gets `NS_COLOR` and goes on, rank 5 gets
`NOT_NS_COLOR` and returns 0. -/
theorem split_only_beyond_uint16_witness :
    ((0 : Int) ≤ 4 ∧ (4 : Int) < 65536 ∧
      (65538 : Int) ≠ ((mainStart 2 65538 5 true).DST : Int)) ∧
    mainStart 2 4 3 true =
      { DST := (4 : Int).toNat, color := some NS_COLOR, split := false,
        outcome := .simulates } ∧
    mainStart 2 65538 1 true =
      { DST := 2, color := some NS_COLOR, split := true, outcome := .simulates } ∧
    mainStart 2 65538 5 true =
      { DST := 2, color := some NOT_NS_COLOR, split := true, outcome := .returned 0 } ∧
    (mainStart 2 65538 5 true).outcome = .returned 0 :=
  ⟨by decide,
    (split_only_beyond_uint16 2 4 3 true).2.1 rfl (by decide) (by decide),
    by decide, by decide,
    (((split_only_beyond_uint16 2 65538 5 true).2.2.1 rfl (by decide)).2.2.2.2
      (by decide)).2⟩

/-- C21 (counterexample): on a group of one process, one execution of the
step of `LoadFlow` for a flow of 1448 bytes gives `packets = 1`; two
executions for the same flow give `packets = 2`, which is what `LoadFlow`
leaves when the phase lists the flow twice. -/
theorem same_flow_twice_counts_twice :
    (∃ s1, installFlows soloEnv [flow1448] (idle [[flow1448, flow1448]]) = .ok s1 ∧
      s1.packets = 1) ∧
    (∃ s2, installFlows soloEnv [flow1448, flow1448] (idle [[flow1448, flow1448]]) = .ok s2 ∧
      s2.packets = 2) ∧
    (∃ s, LoadFlow soloEnv [] (idle [[flow1448, flow1448]]) = .done s ∧ s.packets = 2) :=
  ⟨⟨_, rfl, rfl⟩, ⟨_, rfl, rfl⟩, ⟨_, rfl, rfl⟩⟩

/-- C21 (amended): on the process that owns the destination of a flow, every
execution of the step of `LoadFlow` for that flow adds `ceil (msgLen / 1448)`
to `packets`, modulo `2 ^ 32`: the second execution starts from the globals
the first one left, installs the same applications again, and after both
`packets` has grown by twice that number.  Unless `packets` wraps, and for a
flow that is not empty, it is larger than after a single execution. -/
theorem install_twice_counts_twice (env : Env) (flow : FlowInfo) (st st1 st2 : Sched)
    (h1 : installFlows env [flow] st = .ok st1)
    (h2 : installFlows env [flow, flow] st = .ok st2)
    (hown : env.systemId = flow.dstNodeId / (env.cfg.SERVER * env.cfg.LEAF / env.cfg.DST))
    (hp : st.packets < 4294967296) :
    installFlows env [flow] st1 = .ok st2 ∧
    st1.packets = (st.packets + (flow.msgLen + 1447) / 1448) % 4294967296 ∧
    st2.packets = (st.packets + 2 * ((flow.msgLen + 1447) / 1448)) % 4294967296 ∧
    (∃ apps, CreateFlow env flow = .ok apps ∧
      st2.trace = st.trace ++ (apps ++ apps).map Action.install) ∧
    (st.packets + 2 * ((flow.msgLen + 1447) / 1448) < 4294967296 → 0 < flow.msgLen →
      st1.packets < st2.packets) := by
  have hexp1 : expectedArrivals env [flow] = (flow.msgLen + 1447) / 1448 := by
    simp [expectedArrivals, ownedReceivers, Config.shard, hown.symm]
  have hexp2 : expectedArrivals env [flow, flow] = 2 * ((flow.msgLen + 1447) / 1448) := by
    simp [expectedArrivals, ownedReceivers, Config.shard, hown.symm]
    omega
  have hp1 := installFlows_packets env [flow] st st1 h1 hp
  have hp2 := installFlows_packets env [flow, flow] st st2 h2 hp
  rw [hexp1] at hp1
  rw [hexp2] at hp2
  have hstep : installFlows env [flow] st1 = .ok st2 := by
    cases hc : CreateFlow env flow with
    | error e => simp [installFlows, hc] at h1
    | ok apps =>
      cases ho : ownerExpr env.cfg flow.dstNodeId with
      | error e => simp [installFlows, hc, ho] at h1
      | ok o =>
        simp only [installFlows, hc, ho, Except.ok.injEq] at h1 h2 ⊢
        rw [← h2, ← h1]
  refine ⟨hstep, hp1, hp2, ?_, ?_⟩
  · obtain ⟨apps, hc, ht1⟩ := installFlows_single env flow st st1 h1
    obtain ⟨apps2, hc2, ht2⟩ := installFlows_single env flow st1 st2 hstep
    rw [hc] at hc2
    cases Except.ok.inj hc2
    exact ⟨apps, hc, by rw [ht2, ht1, List.append_assoc, List.map_append]⟩
  · intro hlt hpos
    rw [hp1, hp2, Nat.mod_eq_of_lt hlt, Nat.mod_eq_of_lt (by omega)]
    have : 0 < (flow.msgLen + 1447) / 1448 := Nat.div_pos (by omega) (by omega)
    omega

/-- Witness for C21 (amended) on a group of one process, with a flow of 3000
bytes: 3 after one execution, 6 after two. -/
theorem install_twice_counts_twice_witness :
    (soloEnv.systemId =
        flow3000.dstNodeId / (soloEnv.cfg.SERVER * soloEnv.cfg.LEAF / soloEnv.cfg.DST) ∧
      (idle [[flow3000, flow3000]]).packets < 4294967296) ∧
    (∃ st1 st2, installFlows soloEnv [flow3000] (idle [[flow3000, flow3000]]) = .ok st1 ∧
      installFlows soloEnv [flow3000, flow3000] (idle [[flow3000, flow3000]]) = .ok st2 ∧
      st1.packets = 3 ∧ st2.packets = 6 ∧ installFlows soloEnv [flow3000] st1 = .ok st2) :=
  ⟨by decide, _, _, rfl, rfl, rfl, rfl,
    (install_twice_counts_twice soloEnv flow3000 (idle [[flow3000, flow3000]]) _ _ rfl rfl
      (by decide) (by decide)).1⟩

/-- C22: when `DST` divides `LEAF * SERVER` and the product `SERVER*LEAF`
fits `int`, the owner expression evaluates, for every node id below
`LEAF * SERVER`, to `nodeId / (SERVER * LEAF / DST)`, which is less than `DST`:
exactly one process index of the group is the owner of the node.  That
`DST ≥ 1` follows from the other premises, as zero divides no positive number. -/
theorem owner_is_valid_process (cfg : Config) (nodeId : Nat)
    (hdvd : cfg.DST ∣ cfg.LEAF * cfg.SERVER)
    (hn : nodeId < cfg.LEAF * cfg.SERVER) (hprod : cfg.SERVER * cfg.LEAF ≤ 2147483647) :
    1 ≤ cfg.DST ∧
    ownerExpr cfg nodeId = .ok (nodeId / (cfg.SERVER * cfg.LEAF / cfg.DST)) ∧
    nodeId / (cfg.SERVER * cfg.LEAF / cfg.DST) < cfg.DST ∧
    ∃! p, p < cfg.DST ∧ ownerExpr cfg nodeId = .ok p := by
  have hmul := shard_mul_DST cfg hdvd
  have hsh : cfg.shard ≠ 0 := by
    intro h0
    rw [h0, Nat.zero_mul] at hmul
    omega
  have hok := ownerExpr_ok cfg nodeId hprod hsh
  have hlt : nodeId / cfg.shard < cfg.DST := by
    rw [Nat.div_lt_iff_lt_mul (Nat.pos_of_ne_zero hsh), Nat.mul_comm, hmul]
    exact hn
  refine ⟨Nat.succ_le_of_lt (lt_of_le_of_lt (Nat.zero_le _) hlt), hok, hlt,
    nodeId / cfg.shard, ⟨hlt, hok⟩, ?_⟩
  rintro p ⟨_, hp⟩
  rw [hok] at hp
  exact (Except.ok.inj hp).symm

/-- Witness for C22 on the topology `{4, 8, 8}` with two processes: node 40
belongs to process 1. -/
theorem owner_is_valid_process_witness :
    (pairEnv.cfg.DST ∣ pairEnv.cfg.LEAF * pairEnv.cfg.SERVER ∧
      40 < pairEnv.cfg.LEAF * pairEnv.cfg.SERVER ∧
      pairEnv.cfg.SERVER * pairEnv.cfg.LEAF ≤ 2147483647) ∧
    ownerExpr pairEnv.cfg 40 = .ok 1 ∧ 1 < pairEnv.cfg.DST :=
  ⟨by decide,
    (owner_is_valid_process pairEnv.cfg 40 (by decide) (by decide) (by decide)).2.1,
    by decide⟩

/-- C23: when `DST ≥ 1` divides `LEAF`, the globals hold `uint16_t` values
and the product `SERVER*LEAF` fits `int`, then for every node id below
`LEAF * SERVER` the creation of the server nodes in `main` completes, the
owner expression of `CreateFlow` and `LoadFlow` evaluates to
`(nodeId / SERVER) / (LEAF / DST)`, and this is the system id that `main`
gave to the node `serverNodes[nodeId / SERVER].Get(nodeId % SERVER)` on which
`CreateFlow` installs the endpoint. -/
theorem owner_eq_creation_systemId (cfg : Config) (nodeId : Nat) (hr : cfg.InRange)
    (hD : 1 ≤ cfg.DST) (hdvd : cfg.DST ∣ cfg.LEAF)
    (hn : nodeId < cfg.LEAF * cfg.SERVER) (hprod : cfg.SERVER * cfg.LEAF ≤ 2147483647) :
    ownerExpr cfg nodeId = .ok (nodeId / cfg.SERVER / (cfg.LEAF / cfg.DST)) ∧
    ∃ nodes, createServerNodes cfg = .ok nodes ∧
      systemIdOf nodes (nodeId / cfg.SERVER % 65536) (nodeId % cfg.SERVER % 65536) =
        some (nodeId / cfg.SERVER / (cfg.LEAF / cfg.DST)) := by
  have hS : 0 < cfg.SERVER := by
    rcases Nat.eq_zero_or_pos cfg.SERVER with h0 | h0
    · rw [h0, Nat.mul_zero] at hn; omega
    · exact h0
  have hL : 0 < cfg.LEAF := by
    rcases Nat.eq_zero_or_pos cfg.LEAF with h0 | h0
    · rw [h0, Nat.zero_mul] at hn; omega
    · exact h0
  have hle : cfg.DST ≤ cfg.LEAF := Nat.le_of_dvd hL hdvd
  obtain ⟨hsh, hlp, hleafP, hown, _⟩ := placement_defined cfg hr hS hD hle hprod
  have hleaf : nodeId / cfg.SERVER < cfg.LEAF := by
    rw [Nat.div_lt_iff_lt_mul hS]; exact hn
  have hserver : nodeId % cfg.SERVER < cfg.SERVER := Nat.mod_lt _ hS
  have e1 : nodeId / cfg.SERVER % 65536 = nodeId / cfg.SERVER :=
    Nat.mod_eq_of_lt (lt_trans hleaf hr.2.1)
  have e2 : nodeId % cfg.SERVER % 65536 = nodeId % cfg.SERVER :=
    Nat.mod_eq_of_lt (lt_trans hserver hr.2.2.1)
  refine ⟨?_, ?_⟩
  · rw [hown, shard_eq_mul_leaves cfg hdvd, Nat.div_div_eq_div_mul]
  · rw [e1, e2]
    exact systemIdOf_createServerNodes cfg _ _ _ hleafP hlp hleaf hserver

/-- Witness for C23 on the topology `{4, 8, 8}` with two processes: node 40
is server 0 of leaf 5, created with system id 1. -/
theorem owner_eq_creation_systemId_witness :
    (pairEnv.cfg.InRange ∧ 1 ≤ pairEnv.cfg.DST ∧ pairEnv.cfg.DST ∣ pairEnv.cfg.LEAF ∧
      40 < pairEnv.cfg.LEAF * pairEnv.cfg.SERVER ∧
      pairEnv.cfg.SERVER * pairEnv.cfg.LEAF ≤ 2147483647) ∧
    ownerExpr pairEnv.cfg 40 =
      .ok (40 / pairEnv.cfg.SERVER / (pairEnv.cfg.LEAF / pairEnv.cfg.DST)) ∧
    (createServerNodes pairEnv.cfg).toOption.bind (fun nodes => systemIdOf nodes 5 0) = some 1 :=
  ⟨by decide,
    (owner_eq_creation_systemId pairEnv.cfg 40 (by decide) (by decide) (by decide) (by decide)
      (by decide)).1,
    by decide⟩

/-- C24 (evaluation): the row of index 6 of `topo` has no initialiser, so
that `--topo=6` selects the triple `{0, 0, 0}`; whatever the number of
processes, the owner expression and `CreateFlow` then divide by zero. -/
theorem topo_row_six_is_zero (DST : Nat) :
    selectTopo 6 DST = .ok { SPINE := 0, LEAF := 0, SERVER := 0, DST := DST } ∧
    (∀ nodeId,
      ownerExpr { SPINE := 0, LEAF := 0, SERVER := 0, DST := DST } nodeId =
        .error .divisionByZero) ∧
    ∀ systemId size flow,
      CreateFlow { cfg := { SPINE := 0, LEAF := 0, SERVER := 0, DST := DST },
                   systemId := systemId, size := size } flow = .error .divisionByZero := by
  have ho : ∀ nodeId,
      ownerExpr { SPINE := 0, LEAF := 0, SERVER := 0, DST := DST } nodeId =
        .error .divisionByZero := by
    intro nodeId
    by_cases hd : DST = 0
    · simp [ownerExpr, shardExpr, hd]
    · simp [ownerExpr, shardExpr, hd]
  refine ⟨rfl, ho, ?_⟩
  intro systemId size flow
  simp only [CreateFlow, ho]

/-- C25: for a plan with at least one phase, consider the call of `LoadFlow`
that ends `workLoad` and any arrivals after it.  Every call of `LoadFlow` made
on the way, the first one, those made by `LoadWait` and the nested ones, has
`BatchCur` less than the number of phases (the phases the trace records as
loaded all exist, and `flowInfos` is still the plan); and when the flows of
the plan can be installed the run reaches no undefined behaviour, so no
lookup `flowInfos[BatchCur]` is out of range. -/
theorem LoadFlow_index_in_range (env : Env) (plan : List (List FlowInfo)) (first : List Nat)
    (evs : List (List Nat)) (hplan : plan ≠ []) :
    (∀ s, (afterWorkLoad env plan first evs).state? = some s →
      s.flowInfos = plan ∧ ∀ k ∈ loadedPhases s.trace, k < plan.length) ∧
    (Installable env plan → ∀ f, afterWorkLoad env plan first evs ≠ .undefined f) := by
  have hb : (0 : Nat) < plan.length := List.length_pos.2 hplan
  refine ⟨fun s hs => ?_, fun hi f => ?_⟩
  · have key : LoadsExisting
        { flowInfos := plan, packets := 0, BatchCur := 0, flowCom := 0, trace := [] } s := by
      unfold afterWorkLoad at hs
      cases hl : LoadFlow env first
          { flowInfos := plan, packets := 0, BatchCur := 0, flowCom := 0, trace := [] } with
      | undefined g => simp [hl, Outcome.state?] at hs
      | blocked s1 =>
        simp only [hl] at hs
        exact LoadFlow_existing env first (LoadWait_existing env first) _ s hb
          (by rw [hl]; exact hs)
      | done s1 =>
        simp only [hl] at hs
        exact (LoadFlow_existing env first (LoadWait_existing env first) _ s1 hb
          (by rw [hl]; rfl)).trans (arrivals_existing env evs s1 s hs)
    obtain ⟨hf, t, ht, hk⟩ := key
    simp only [List.nil_append] at ht
    exact ⟨hf, by rw [ht]; exact hk⟩
  · unfold afterWorkLoad
    cases hl : LoadFlow env first
        { flowInfos := plan, packets := 0, BatchCur := 0, flowCom := 0, trace := [] } with
    | undefined g =>
      exact absurd hl (LoadFlow_defined env first (LoadWait_defined env first) _ hb hi g)
    | blocked s1 => simp
    | done s1 =>
      simp only
      have hf := (LoadFlow_existing env first (LoadWait_existing env first) _ s1 hb
        (by rw [hl]; rfl)).1
      exact arrivals_defined env evs s1 (by rw [hf]; exact hi) f

/-- Witness for C25 on process 0 of two, which owns no receiver in the first
phase and one in the second: phase 1 is loaded by the nested call of
`LoadWait`, and after the three arrivals no further phase is looked up. -/
theorem LoadFlow_index_in_range_witness :
    [[flowAway], [flow3000]] ≠ [] ∧
    (afterWorkLoad pairEnv [[flowAway], [flow3000]] [2] [[2], [2], [2]]).state?.map
        (fun s => (loadedPhases s.trace, s.BatchCur)) = some ([0, 1], 2) ∧
    ∀ s, (afterWorkLoad pairEnv [[flowAway], [flow3000]] [2] [[2], [2], [2]]).state? = some s →
      s.flowInfos = [[flowAway], [flow3000]] ∧
      ∀ k ∈ loadedPhases s.trace, k < [[flowAway], [flow3000]].length :=
  ⟨by decide, by decide,
    (LoadFlow_index_in_range pairEnv [[flowAway], [flow3000]] [2] [[2], [2], [2]]
      (by decide)).1⟩

end SchedulerModel
